import Mathlib

/-! CvtYUVRGB: planar Y'CbCr to RGB conversion (`cvtYUV2RGB.hpp`)

A shallow embedding of `src/cvtYUV2RGB.hpp` and the properties proved about it.

Modelling conventions.

* `uint32_t` / `size_t` values are natural numbers; every `uint32_t` operation
  that can leave the 32-bit range in C++ is reduced with `u32` (`% 2^32`).
  `size_t` indices are not reduced (a 64-bit index never wraps in the code
  paths considered).
* `float` values are rationals: the arithmetic of the converter is carried
  out exactly (no rounding, no NaN/infinity; a division by zero is `0`).
* A plane is a byte memory indexed by the offset from its base pointer, and a
  row stride.  A sample of type `_dataByteType` is assembled from its bytes,
  least significant byte first.
* `x >> s` is the mathematical right shift `x / 2^s` (C++ defines it for
  `s < 32` on `uint32_t` and `s < 64` on `size_t`), and `1 << depth` is
  `2^depth` (C++ defines it for `depth < 31`).
* Two positions are only ever compared within one container, so the address
  test of `operator==` on `m_parent` is not represented.
* The samples a function reads and the integer divisions it evaluates are made
  observable by companion functions with the same control flow (`getReads`,
  `getChecked` and the like); a checked function is `none` on a zero divisor.
* `std::variant<YUVImage, std::string>` is `Except String YUVImage`.
-/

namespace Kumazuma

/-- `YuvF`: the normalised sample `{ float Y; float U; float V; }`. -/
structure YuvF where
  Y : ℚ
  U : ℚ
  V : ℚ
deriving DecidableEq

/-- `RgbF`: the converted sample `{ float R; float G; float B; }`. -/
structure RgbF where
  R : ℚ
  G : ℚ
  B : ℚ
deriving DecidableEq

namespace CvtYUV2RGB

/-- Reduction of a natural number to the range of `uint32_t`. -/
def u32 (n : Nat) : Nat := n % 4294967296

/-- `struct CvtConstantParamerter { float kr; float kg; float kb; }`. -/
structure CvtConstantParamerter where
  kr : ℚ
  kg : ℚ
  kb : ℚ

/-- `CvtConstantParamerter::BT601()`: `{ 0.299, 0.587, 0.114 }`. -/
def CvtConstantParamerter.BT601 : CvtConstantParamerter :=
  { kr := 299 / 1000, kg := 587 / 1000, kb := 114 / 1000 }

/-- `CvtConstantParamerter::BT709()`: `{ 0.2126, 0.7152, 0.0722 }`. -/
def CvtConstantParamerter.BT709 : CvtConstantParamerter :=
  { kr := 2126 / 10000, kg := 7152 / 10000, kb := 722 / 10000 }

/-- `CvtConstantParamerter::BT2020()`: `{ 0.2627, 0.678, 0.0593 }`. -/
def CvtConstantParamerter.BT2020 : CvtConstantParamerter :=
  { kr := 2627 / 10000, kg := 678 / 1000, kb := 593 / 10000 }

/-- `struct YUVPlane { const uint8_t* data; uint32_t stride; }`: `data k` is the
byte stored `k` bytes after the base pointer. -/
structure YUVPlane where
  data : Nat → Nat
  stride : Nat

/-- `struct YUVImage`: the three planes and the geometry. -/
structure YUVImage where
  Y : YUVPlane
  U : YUVPlane
  V : YUVPlane
  width : Nat
  height : Nat
  chromaShiftX : Nat
  chromaShiftY : Nat
  depth : Nat

/-- The template argument `_dataByteType` of `YUV_t`: the unsigned integer type
of one stored sample. -/
inductive DataByteType where
  | uint8_t
  | uint16_t
deriving DecidableEq

/-- `sizeof(_dataByteType)`. -/
def DataByteType.sizeof : DataByteType → Nat
  | .uint8_t => 1
  | .uint16_t => 2

/-- The unsigned integer stored in the `n` bytes that start at offset `off`,
least significant byte first. -/
def readLE (data : Nat → Nat) (off : Nat) : Nat → Nat
  | 0 => 0
  | n + 1 => data off % 256 + 256 * readLE data (off + 1) n

/-- `GetRow<T>(plane, row, stride)`: the row that starts `row * stride` bytes
into the plane, as an array of `T`; `GetRow T plane row stride col` is the
element `[col]` of it. -/
def GetRow (T : DataByteType) (plane : Nat → Nat) (row stride : Nat) : Nat → Nat :=
  fun col => readLE plane (row * stride + col * T.sizeof) T.sizeof

/-- `class YUV_t<_dataByteType>`: the descriptor and the two clamp constants. -/
structure YUV_t (T : DataByteType) where
  m_image : YUVImage
  MAX_UVX : Nat
  MAX_UVY : Nat

/-- The constructor `YUV_t(const YUVImage& image)`:
`MAX_UVX(((image.width + image.chromaShiftX) >> image.chromaShiftX) - 1)` and the
same for `MAX_UVY`, in `uint32_t` arithmetic. -/
def YUV_t.new (T : DataByteType) (image : YUVImage) : YUV_t T :=
  { m_image := image
    MAX_UVX := u32 ((u32 (image.width + image.chromaShiftX) >>> image.chromaShiftX) + 4294967295)
    MAX_UVY := u32 ((u32 (image.height + image.chromaShiftY) >>> image.chromaShiftY) + 4294967295) }

/-- `YUV_t::size()`: `m_image.width * m_image.height`, a `uint32_t` product. -/
def YUV_t.size {T : DataByteType} (s : YUV_t T) : Nat :=
  u32 (s.m_image.width * s.m_image.height)

/-- `YUV_t::get(size_t index)`. -/
def YUV_t.get {T : DataByteType} (s : YUV_t T) (index : Nat) : YuvF :=
  if index ≥ s.size then
    { Y := -1, U := -1, V := -1 }
  else
    let image := s.m_image
    let col := index % image.width
    let row := index / image.width
    let uvY := min (u32 (row >>> image.chromaShiftY)) s.MAX_UVY
    let uvX := min (u32 (col >>> image.chromaShiftX)) s.MAX_UVX
    let Y : ℚ := (GetRow T image.Y.data row image.Y.stride col : ℚ) / (((1 <<< image.depth) - 1 : Nat) : ℚ)
    let U : ℚ := (GetRow T image.U.data uvY image.U.stride uvX : ℚ) / (((1 <<< image.depth) - 1 : Nat) : ℚ) - 1 / 2
    let V : ℚ := (GetRow T image.V.data uvY image.V.stride uvX : ℚ) / (((1 <<< image.depth) - 1 : Nat) : ℚ) - 1 / 2
    { Y := Y, U := U, V := V }

/-- `YUV_t::ConstIter`: a position of the lazy sequence. -/
structure YUV_t.ConstIter (T : DataByteType) where
  m_parent : YUV_t T
  m_index : Nat
  m_uvY : Nat
  m_yuv : YuvF

/-- `YUV_t::ConstIter::get()`: decodes the sample at `m_index` with the cached
chroma row `m_uvY`.  It reads `m_parent`, `m_index` and `m_uvY` only. -/
def YUV_t.ConstIter.get {T : DataByteType} (m_parent : YUV_t T) (m_index m_uvY : Nat) : YuvF :=
  if m_index ≥ m_parent.size then
    { Y := -1, U := -1, V := -1 }
  else
    let image := m_parent.m_image
    let col := m_index % image.width
    let row := m_index / image.width
    let uvX := min (u32 (col >>> image.chromaShiftX)) m_parent.MAX_UVX
    let Y : ℚ := (GetRow T image.Y.data row image.Y.stride col : ℚ) / (((1 <<< image.depth) - 1 : Nat) : ℚ)
    let U : ℚ := (GetRow T image.U.data m_uvY image.U.stride uvX : ℚ) / (((1 <<< image.depth) - 1 : Nat) : ℚ) - 1 / 2
    let V : ℚ := (GetRow T image.V.data m_uvY image.V.stride uvX : ℚ) / (((1 <<< image.depth) - 1 : Nat) : ℚ) - 1 / 2
    { Y := Y, U := U, V := V }

/-- The constructor `ConstIter(const YUV_t& parent, size_t index)`. -/
def YUV_t.ConstIter.new {T : DataByteType} (parent : YUV_t T) (index : Nat) : YUV_t.ConstIter T :=
  let m_uvY := min (u32 ((index / parent.m_image.width) >>> parent.m_image.chromaShiftY)) parent.MAX_UVY
  { m_parent := parent
    m_index := index
    m_uvY := m_uvY
    m_yuv := YUV_t.ConstIter.get parent index m_uvY }

/-- The pre-increment `ConstIter& operator++()`. -/
def YUV_t.ConstIter.preInc {T : DataByteType} (it : YUV_t.ConstIter T) : YUV_t.ConstIter T :=
  let rowPrev := it.m_index / it.m_parent.m_image.width
  let m_index := it.m_index + 1
  let row := m_index / it.m_parent.m_image.width
  let m_uvY :=
    if rowPrev ≠ row then
      min (u32 (row >>> it.m_parent.m_image.chromaShiftY)) it.m_parent.MAX_UVY
    else it.m_uvY
  let m_yuv :=
    if m_index < it.m_parent.size then YUV_t.ConstIter.get it.m_parent m_index m_uvY
    else it.m_yuv
  { m_parent := it.m_parent, m_index := m_index, m_uvY := m_uvY, m_yuv := m_yuv }

/-- `ConstIter operator+(size_t index)`: a freshly constructed position. -/
def YUV_t.ConstIter.add {T : DataByteType} (it : YUV_t.ConstIter T) (index : Nat) : YUV_t.ConstIter T :=
  YUV_t.ConstIter.new it.m_parent (it.m_index + index)

/-- `const YuvF& operator*() const`. -/
def YUV_t.ConstIter.deref {T : DataByteType} (it : YUV_t.ConstIter T) : YuvF :=
  it.m_yuv

/-- `YUV_t::begin()`. -/
def YUV_t.begin {T : DataByteType} (s : YUV_t T) : YUV_t.ConstIter T :=
  YUV_t.ConstIter.new s 0

/-- `YUV_t::end()`: `ConstIter(*this, m_image.width * m_image.height)`. -/
def YUV_t.end_ {T : DataByteType} (s : YUV_t T) : YUV_t.ConstIter T :=
  YUV_t.ConstIter.new s (u32 (s.m_image.width * s.m_image.height))

/-- `class RGBFloat<YUV_t>`: a sampler and a coefficient triple. -/
structure RGBFloat (T : DataByteType) where
  m_yuvs : YUV_t T
  m_param : CvtConstantParamerter

/-- The matrix formula, written out twice in the source with the same text
(`RGBFloat::get` and `RGBFloat::ConstIter::get`):
`R = Y + (2 * (1 - kr)) * V`, `B = Y + (2 * (1 - kb)) * U`,
`G = Y - ((2 * ((kr * (1 - kr) * V) + (kb * (1 - kb) * U))) / kg)`. -/
def RGBFloat.formula (m_param : CvtConstantParamerter) (yuv : YuvF) : RgbF :=
  let kr := m_param.kr
  let kg := m_param.kg
  let kb := m_param.kb
  let R : ℚ := yuv.Y + (2 * (1 - kr)) * yuv.V
  let B : ℚ := yuv.Y + (2 * (1 - kb)) * yuv.U
  let G : ℚ := yuv.Y - ((2 * ((kr * (1 - kr) * yuv.V) + (kb * (1 - kb) * yuv.U))) / kg)
  { R := R, G := G, B := B }

/-- `RGBFloat::get(size_t index)`: the formula applied to `m_yuvs.get(index)`. -/
def RGBFloat.get {T : DataByteType} (c : RGBFloat T) (index : Nat) : RgbF :=
  let yuv := c.m_yuvs.get index
  RGBFloat.formula c.m_param yuv

/-- `RGBFloat::ConstIter`: a position of the converter's lazy sequence. -/
structure RGBFloat.ConstIter (T : DataByteType) where
  m_parent : RGBFloat T
  m_yuvIter : YUV_t.ConstIter T
  m_index : Nat
  m_rgb : RgbF

/-- `RGBFloat::ConstIter::get()`: the formula applied to `*m_yuvIter`. -/
def RGBFloat.ConstIter.get {T : DataByteType} (m_parent : RGBFloat T)
    (m_yuvIter : YUV_t.ConstIter T) : RgbF :=
  let yuv := m_yuvIter.deref
  RGBFloat.formula m_parent.m_param yuv

/-- The constructor `ConstIter(const RGBFloat& parent, size_t index)`:
`m_rgb(m_parent.get(0))`, `m_yuvIter(parent.m_yuvs.begin() + index)`. -/
def RGBFloat.ConstIter.new {T : DataByteType} (parent : RGBFloat T) (index : Nat) :
    RGBFloat.ConstIter T :=
  { m_parent := parent
    m_yuvIter := parent.m_yuvs.begin.add index
    m_index := index
    m_rgb := parent.get 0 }

/-- The pre-increment `ConstIter& operator++()` of the converter's position. -/
def RGBFloat.ConstIter.preInc {T : DataByteType} (it : RGBFloat.ConstIter T) :
    RGBFloat.ConstIter T :=
  let m_index := it.m_index + 1
  let m_yuvIter := it.m_yuvIter.preInc
  { m_parent := it.m_parent
    m_yuvIter := m_yuvIter
    m_index := m_index
    m_rgb := RGBFloat.ConstIter.get it.m_parent m_yuvIter }

/-- `const RgbF& operator*() const`. -/
def RGBFloat.ConstIter.deref {T : DataByteType} (it : RGBFloat.ConstIter T) : RgbF :=
  it.m_rgb

/-- `bool operator!=(const ConstIter& obj)` for two positions of one converter
(the address test on `m_parent` passes): the linear indices differ. -/
def RGBFloat.ConstIter.ne {T : DataByteType} (it obj : RGBFloat.ConstIter T) : Bool :=
  decide (obj.m_index ≠ it.m_index)

/-- `RGBFloat::begin()`. -/
def RGBFloat.begin {T : DataByteType} (c : RGBFloat T) : RGBFloat.ConstIter T :=
  RGBFloat.ConstIter.new c 0

/-- `RGBFloat::end()`: `ConstIter(*this, m_yuvs.size())`. -/
def RGBFloat.end_ {T : DataByteType} (c : RGBFloat T) : RGBFloat.ConstIter T :=
  RGBFloat.ConstIter.new c c.m_yuvs.size

/-- `RGBFloat::size()`. -/
def RGBFloat.size {T : DataByteType} (c : RGBFloat T) : Nat :=
  c.m_yuvs.size

/-- `static_cast<uint8_t>(x)` of a `float`: the fractional part is discarded
(truncation toward zero).  C++ defines the result when the truncated value is in
`0..255`; outside that range the model keeps the low eight bits. -/
def toUInt8 (x : ℚ) : Nat :=
  ((if 0 ≤ x then ⌊x⌋ else ⌈x⌉) % 256).toNat

/-- The variables of `toRGB24` while its loop runs: the output memory behind
`ptr`, the offset `i` and the position of the range-based `for`. -/
structure ToRGB24State (T : DataByteType) where
  ptr : Nat → Nat
  i : Nat
  it : RGBFloat.ConstIter T

/-- One iteration of the loop of `toRGB24`: the three stores, `i += 3`, and the
advance of the position.  The product `rgb.R * 255` is exact. -/
def toRGB24.body {T : DataByteType} (s : ToRGB24State T) : ToRGB24State T :=
  let rgb := s.it.deref
  let p0 := Function.update s.ptr (s.i + 0) (toUInt8 (rgb.R * 255))
  let p1 := Function.update p0 (s.i + 1) (toUInt8 (rgb.G * 255))
  let p2 := Function.update p1 (s.i + 2) (toUInt8 (rgb.B * 255))
  { ptr := p2, i := s.i + 3, it := s.it.preInc }

/-- The loop `for (; it != end; ++it) body`, run for at most `fuel` iterations:
`none` when the loop is still running after `fuel` iterations. -/
def toRGB24.loop {T : DataByteType} (e : RGBFloat.ConstIter T) :
    Nat → ToRGB24State T → Option (ToRGB24State T)
  | 0, s => if s.it.ne e then none else some s
  | fuel + 1, s => if s.it.ne e then toRGB24.loop e fuel (toRGB24.body s) else some s

/-- `toRGB24(uint8_t* ptr, const RGBFloat<YUV>& rgbs)`: the output memory when
the loop has ended within `fuel` iterations.  The bytes are the casts of the
exact-arithmetic channels (`float` is rational throughout this file). -/
def toRGB24 {T : DataByteType} (fuel : Nat) (ptr : Nat → Nat) (rgbs : RGBFloat T) :
    Option (Nat → Nat) :=
  (toRGB24.loop rgbs.end_ fuel { ptr := ptr, i := 0, it := rgbs.begin }).map (fun s => s.ptr)

/-! ## The raw samples read for a pixel -/

/-- The luma operand of `YUV_t::get(index)`:
`GetRow<_dataByteType>(image.Y.data, row, image.Y.stride)[col]`. -/
def YUV_t.rawY {T : DataByteType} (s : YUV_t T) (index : Nat) : Nat :=
  GetRow T s.m_image.Y.data (index / s.m_image.width) s.m_image.Y.stride (index % s.m_image.width)

/-- The chroma operand of `YUV_t::get(index)` in plane U:
`GetRow<_dataByteType>(image.U.data, uvY, image.U.stride)[uvX]`. -/
def YUV_t.rawU {T : DataByteType} (s : YUV_t T) (index : Nat) : Nat :=
  GetRow T s.m_image.U.data
    (min (u32 ((index / s.m_image.width) >>> s.m_image.chromaShiftY)) s.MAX_UVY)
    s.m_image.U.stride
    (min (u32 ((index % s.m_image.width) >>> s.m_image.chromaShiftX)) s.MAX_UVX)

/-- The chroma operand of `YUV_t::get(index)` in plane V:
`GetRow<_dataByteType>(image.V.data, uvY, image.V.stride)[uvX]`. -/
def YUV_t.rawV {T : DataByteType} (s : YUV_t T) (index : Nat) : Nat :=
  GetRow T s.m_image.V.data
    (min (u32 ((index / s.m_image.width) >>> s.m_image.chromaShiftY)) s.MAX_UVY)
    s.m_image.V.stride
    (min (u32 ((index % s.m_image.width) >>> s.m_image.chromaShiftX)) s.MAX_UVX)

/-! ## What the specification says, in its own words -/

/-- The sample the specification gives for an in-range index: luma at
`(row, col)`, chroma at `(row >> chromaShiftY, col >> chromaShiftX)`, each
divided by `2^depth - 1`, chroma then centred by `1/2`; `row = index / width`,
`col = index mod width`. -/
def specSample (T : DataByteType) (image : YUVImage) (index : Nat) : YuvF :=
  { Y := (GetRow T image.Y.data (index / image.width) image.Y.stride
            (index % image.width) : ℚ) / (2 ^ image.depth - 1)
    U := (GetRow T image.U.data ((index / image.width) >>> image.chromaShiftY)
            image.U.stride ((index % image.width) >>> image.chromaShiftX) : ℚ)
          / (2 ^ image.depth - 1) - 1 / 2
    V := (GetRow T image.V.data ((index / image.width) >>> image.chromaShiftY)
            image.V.stride ((index % image.width) >>> image.chromaShiftX) : ℚ)
          / (2 ^ image.depth - 1) - 1 / 2 }

/-- The clamp constant of the specification: `ceil(n / 2^shift) - 1`. -/
def specMaxUV (n shift : Nat) : ℤ :=
  ⌈(n : ℚ) / 2 ^ shift⌉ - 1

/-- The forward encoding of the specification:
`Y = kr*R + kg*G + kb*B`, `U = (B - Y) / (2*(1 - kb))`, `V = (R - Y) / (2*(1 - kr))`. -/
def specEncode (p : CvtConstantParamerter) (rgb : RgbF) : YuvF :=
  let Y : ℚ := p.kr * rgb.R + p.kg * rgb.G + p.kb * rgb.B
  { Y := Y, U := (rgb.B - Y) / (2 * (1 - p.kb)), V := (rgb.R - Y) / (2 * (1 - p.kr)) }

/-! ## Concrete descriptors -/

/-- A plane whose every byte is `b`. -/
def constPlane (b stride : Nat) : YUVPlane :=
  { data := fun _ => b, stride := stride }

/-- A plane whose byte at offset `k` is `k mod 256`. -/
def rampPlane (stride : Nat) : YUVPlane :=
  { data := fun k => k % 256, stride := stride }

/-- An 8-bit image of the given geometry whose planes hold the constant bytes
`y`, `u`, `v`. -/
def flatImage (width height chromaShiftX chromaShiftY y u v : Nat) : YUVImage :=
  { Y := constPlane y width
    U := constPlane u width
    V := constPlane v width
    width := width
    height := height
    chromaShiftX := chromaShiftX
    chromaShiftY := chromaShiftY
    depth := 8 }

/-- A 4:2:0 image of 4 x 4 pixels, 8 bits, whose planes hold the byte offsets. -/
def rampImage420 : YUVImage :=
  { Y := rampPlane 4
    U := rampPlane 2
    V := rampPlane 2
    width := 4
    height := 4
    chromaShiftX := 1
    chromaShiftY := 1
    depth := 8 }

/-- An image of 5 x 1 pixels with `chromaShiftX = 2` (two chroma columns), 8 bits,
whose planes hold the byte offsets. -/
def rampImage5 : YUVImage :=
  { Y := rampPlane 5
    U := rampPlane 2
    V := rampPlane 2
    width := 5
    height := 1
    chromaShiftX := 2
    chromaShiftY := 0
    depth := 8 }

/-- A black image of 65536 x 65536 pixels: `width * height = 2^32`. -/
def squareImage65536 : YUVImage := flatImage 65536 65536 0 0 0 0 0

/-- A black image of 2147483649 x 2 pixels: `width * height = 2^32 + 2`. -/
def wideImage : YUVImage := flatImage 2147483649 2 0 0 0 0 0

/-- An 8-bit image of one pixel with raw samples `Y = 255`, `U = 128`, `V = 128`. -/
def whiteImage : YUVImage := flatImage 1 1 0 0 255 128 128

/-! ## The descriptor builder -/

/-- `class YUVImageBuilder`: the eight `std::optional` members. -/
structure YUVImageBuilder where
  m_y : Option YUVPlane
  m_u : Option YUVPlane
  m_v : Option YUVPlane
  m_width : Option Nat
  m_height : Option Nat
  m_chromaShiftX : Option Nat
  m_chromaShiftY : Option Nat
  m_bitDepth : Option Nat

/-- The constructor `YUVImageBuilder() {}`: every member is empty. -/
def YUVImageBuilder.new : YUVImageBuilder :=
  { m_y := none, m_u := none, m_v := none, m_width := none, m_height := none,
    m_chromaShiftX := none, m_chromaShiftY := none, m_bitDepth := none }

/-- `PlaneY(const uint8_t* data, uint32_t stride)`. -/
def YUVImageBuilder.PlaneY (b : YUVImageBuilder) (data : Nat → Nat) (stride : Nat) :
    YUVImageBuilder :=
  { b with m_y := some { data := data, stride := stride } }

/-- `PlaneU(const uint8_t* data, uint32_t stride)`. -/
def YUVImageBuilder.PlaneU (b : YUVImageBuilder) (data : Nat → Nat) (stride : Nat) :
    YUVImageBuilder :=
  { b with m_u := some { data := data, stride := stride } }

/-- `PlaneV(const uint8_t* data, uint32_t stride)`. -/
def YUVImageBuilder.PlaneV (b : YUVImageBuilder) (data : Nat → Nat) (stride : Nat) :
    YUVImageBuilder :=
  { b with m_v := some { data := data, stride := stride } }

/-- `Width(uint32_t val)`. -/
def YUVImageBuilder.Width (b : YUVImageBuilder) (val : Nat) : YUVImageBuilder :=
  { b with m_width := some val }

/-- `Height(uint32_t val)`. -/
def YUVImageBuilder.Height (b : YUVImageBuilder) (val : Nat) : YUVImageBuilder :=
  { b with m_height := some val }

/-- `ChromaShiftX(uint32_t val)`. -/
def YUVImageBuilder.ChromaShiftX (b : YUVImageBuilder) (val : Nat) : YUVImageBuilder :=
  { b with m_chromaShiftX := some val }

/-- `ChromaShiftY(uint32_t val)`. -/
def YUVImageBuilder.ChromaShiftY (b : YUVImageBuilder) (val : Nat) : YUVImageBuilder :=
  { b with m_chromaShiftY := some val }

/-- `BitDepth(uint8_t val)`. -/
def YUVImageBuilder.BitDepth (b : YUVImageBuilder) (val : Nat) : YUVImageBuilder :=
  { b with m_bitDepth := some val }

/-- `std::variant<YUVImage, std::string> build()`: the thrown and caught string is
the error, the filled descriptor the result. -/
def YUVImageBuilder.build (b : YUVImageBuilder) : Except String YUVImage :=
  match b.m_y with
  | none => Except.error "Y Plane"
  | some y =>
  match b.m_u with
  | none => Except.error "U Plane"
  | some u =>
  match b.m_v with
  | none => Except.error "V Plane"
  | some v =>
  match b.m_width with
  | none => Except.error "Width"
  | some width =>
  match b.m_height with
  | none => Except.error "Height"
  | some height =>
  match b.m_chromaShiftX with
  | none => Except.error "ChromaShiftX"
  | some chromaShiftX =>
  match b.m_chromaShiftY with
  | none => Except.error "ChromaShiftY"
  | some chromaShiftY =>
  match b.m_bitDepth with
  | none => Except.error "BitDepth"
  | some depth =>
    Except.ok { Y := y, U := u, V := v, width := width, height := height,
                chromaShiftX := chromaShiftX, chromaShiftY := chromaShiftY, depth := depth }

/-- The eight required fields, in the order `build()` checks them. -/
inductive BuilderField where
  | planeY
  | planeU
  | planeV
  | width
  | height
  | chromaShiftX
  | chromaShiftY
  | bitDepth
deriving DecidableEq

/-- The position of a field in the order of the checks of `build()`. -/
def BuilderField.rank : BuilderField → Nat
  | .planeY => 0
  | .planeU => 1
  | .planeV => 2
  | .width => 3
  | .height => 4
  | .chromaShiftX => 5
  | .chromaShiftY => 6
  | .bitDepth => 7

/-- The string `build()` throws for a field. -/
def BuilderField.name : BuilderField → String
  | .planeY => "Y Plane"
  | .planeU => "U Plane"
  | .planeV => "V Plane"
  | .width => "Width"
  | .height => "Height"
  | .chromaShiftX => "ChromaShiftX"
  | .chromaShiftY => "ChromaShiftY"
  | .bitDepth => "BitDepth"

/-- One call of a setter of the builder, with its arguments. -/
inductive SetterCall where
  | PlaneY (data : Nat → Nat) (stride : Nat)
  | PlaneU (data : Nat → Nat) (stride : Nat)
  | PlaneV (data : Nat → Nat) (stride : Nat)
  | Width (val : Nat)
  | Height (val : Nat)
  | ChromaShiftX (val : Nat)
  | ChromaShiftY (val : Nat)
  | BitDepth (val : Nat)

/-- The field a setter call sets. -/
def SetterCall.field : SetterCall → BuilderField
  | .PlaneY _ _ => .planeY
  | .PlaneU _ _ => .planeU
  | .PlaneV _ _ => .planeV
  | .Width _ => .width
  | .Height _ => .height
  | .ChromaShiftX _ => .chromaShiftX
  | .ChromaShiftY _ => .chromaShiftY
  | .BitDepth _ => .bitDepth

/-- The builder after one setter call. -/
def SetterCall.apply (b : YUVImageBuilder) : SetterCall → YUVImageBuilder
  | .PlaneY data stride => b.PlaneY data stride
  | .PlaneU data stride => b.PlaneU data stride
  | .PlaneV data stride => b.PlaneV data stride
  | .Width val => b.Width val
  | .Height val => b.Height val
  | .ChromaShiftX val => b.ChromaShiftX val
  | .ChromaShiftY val => b.ChromaShiftY val
  | .BitDepth val => b.BitDepth val

/-- The builder after a sequence of setter calls on a fresh builder. -/
def YUVImageBuilder.afterCalls (calls : List SetterCall) : YUVImageBuilder :=
  calls.foldl SetterCall.apply YUVImageBuilder.new

/-- A field was never set: no call of the sequence is a call of its setter. -/
def neverSet (calls : List SetterCall) (f : BuilderField) : Prop :=
  ∀ c ∈ calls, c.field ≠ f

/-- The most recent call of the setter of field `f` in a sequence of calls. -/
def lastCall (calls : List SetterCall) (f : BuilderField) : Option SetterCall :=
  calls.reverse.find? (fun c => decide (c.field = f))

/-- The content of a member of the builder, as the setter call that stores it. -/
def YUVImageBuilder.stored (b : YUVImageBuilder) : BuilderField → Option SetterCall
  | .planeY => b.m_y.map (fun p => SetterCall.PlaneY p.data p.stride)
  | .planeU => b.m_u.map (fun p => SetterCall.PlaneU p.data p.stride)
  | .planeV => b.m_v.map (fun p => SetterCall.PlaneV p.data p.stride)
  | .width => b.m_width.map SetterCall.Width
  | .height => b.m_height.map SetterCall.Height
  | .chromaShiftX => b.m_chromaShiftX.map SetterCall.ChromaShiftX
  | .chromaShiftY => b.m_chromaShiftY.map SetterCall.ChromaShiftY
  | .bitDepth => b.m_bitDepth.map SetterCall.BitDepth

/-- The three plane setters only: width, height, both shifts and the bit depth
are never set. -/
def callsPlanesOnly : List SetterCall :=
  [SetterCall.PlaneY (fun _ => 0) 4, SetterCall.PlaneU (fun _ => 0) 2,
   SetterCall.PlaneV (fun _ => 0) 2]

/-- All eight setters, every numeric argument `0`; `Width` is called twice. -/
def callsAllZero : List SetterCall :=
  [SetterCall.Width 7, SetterCall.PlaneY (fun _ => 0) 0, SetterCall.PlaneU (fun _ => 0) 0,
   SetterCall.PlaneV (fun _ => 0) 0, SetterCall.Width 0, SetterCall.Height 0,
   SetterCall.ChromaShiftX 0, SetterCall.ChromaShiftY 0, SetterCall.BitDepth 0]

/-! ## Coordinates, reads and divisions of the sampler -/

/-- The local `uvY` of `YUV_t::get(index)`:
`std::min(static_cast<uint32_t>(row >> image.chromaShiftY), MAX_UVY)`. -/
def YUV_t.uvY {T : DataByteType} (s : YUV_t T) (index : Nat) : Nat :=
  min (u32 ((index / s.m_image.width) >>> s.m_image.chromaShiftY)) s.MAX_UVY

/-- The local `uvX` of `YUV_t::get(index)`:
`std::min(static_cast<uint32_t>(col >> image.chromaShiftX), MAX_UVX)`. -/
def YUV_t.uvX {T : DataByteType} (s : YUV_t T) (index : Nat) : Nat :=
  min (u32 ((index % s.m_image.width) >>> s.m_image.chromaShiftX)) s.MAX_UVX

/-- `bool operator==(const ConstIter& obj)` for two positions of one sampler (the
address test on `m_parent` passes): the linear indices are the same. -/
def YUV_t.ConstIter.eq {T : DataByteType} (it obj : YUV_t.ConstIter T) : Bool :=
  decide (obj.m_index = it.m_index)

/-- The three planes of a descriptor. -/
inductive PlaneId where
  | Y
  | U
  | V
deriving DecidableEq

/-- One sample read: the plane, the row passed to `GetRow` and the element index. -/
structure PlaneRead where
  plane : PlaneId
  row : Nat
  col : Nat
deriving DecidableEq

/-- The sample reads `YUV_t::get(index)` performs, in order: none on the early
return, else one in each plane. -/
def YUV_t.getReads {T : DataByteType} (s : YUV_t T) (index : Nat) : List PlaneRead :=
  if index ≥ s.size then
    []
  else
    let image := s.m_image
    let col := index % image.width
    let row := index / image.width
    let uvY := min (u32 (row >>> image.chromaShiftY)) s.MAX_UVY
    let uvX := min (u32 (col >>> image.chromaShiftX)) s.MAX_UVX
    [{ plane := .Y, row := row, col := col }, { plane := .U, row := uvY, col := uvX },
     { plane := .V, row := uvY, col := uvX }]

/-- The sample reads `YUV_t::ConstIter::get()` performs. -/
def YUV_t.ConstIter.getReads {T : DataByteType} (m_parent : YUV_t T) (m_index m_uvY : Nat) :
    List PlaneRead :=
  if m_index ≥ m_parent.size then
    []
  else
    let image := m_parent.m_image
    let col := m_index % image.width
    let row := m_index / image.width
    let uvX := min (u32 (col >>> image.chromaShiftX)) m_parent.MAX_UVX
    [{ plane := .Y, row := row, col := col }, { plane := .U, row := m_uvY, col := uvX },
     { plane := .V, row := m_uvY, col := uvX }]

/-- The sample reads the constructor `ConstIter(parent, index)` performs (through
its call of `get()`). -/
def YUV_t.ConstIter.newReads {T : DataByteType} (parent : YUV_t T) (index : Nat) :
    List PlaneRead :=
  let m_uvY := min (u32 ((index / parent.m_image.width) >>> parent.m_image.chromaShiftY)) parent.MAX_UVY
  YUV_t.ConstIter.getReads parent index m_uvY

/-- The sample reads one pre-increment performs: those of `get()` when the new
index is below `size()`, none otherwise. -/
def YUV_t.ConstIter.preIncReads {T : DataByteType} (it : YUV_t.ConstIter T) : List PlaneRead :=
  let rowPrev := it.m_index / it.m_parent.m_image.width
  let m_index := it.m_index + 1
  let row := m_index / it.m_parent.m_image.width
  let m_uvY :=
    if rowPrev ≠ row then
      min (u32 (row >>> it.m_parent.m_image.chromaShiftY)) it.m_parent.MAX_UVY
    else it.m_uvY
  if m_index < it.m_parent.size then YUV_t.ConstIter.getReads it.m_parent m_index m_uvY
  else []

/-- A read lies inside the logical dimensions of its plane: luma row below
`height` and column below `width`; chroma row at most `(height - 1) >> chromaShiftY`
and column at most `(width - 1) >> chromaShiftX`. -/
def PlaneRead.inBounds (image : YUVImage) (r : PlaneRead) : Prop :=
  match r.plane with
  | .Y => r.row < image.height ∧ r.col < image.width
  | .U => r.row ≤ (image.height - 1) >>> image.chromaShiftY
          ∧ r.col ≤ (image.width - 1) >>> image.chromaShiftX
  | .V => r.row ≤ (image.height - 1) >>> image.chromaShiftY
          ∧ r.col ≤ (image.width - 1) >>> image.chromaShiftX

/-- Integer division `a / b` with the division by zero made explicit. -/
def checkedDiv (a b : Nat) : Option Nat :=
  if b = 0 then none else some (a / b)

/-- Integer remainder `a % b` with the division by zero made explicit. -/
def checkedMod (a b : Nat) : Option Nat :=
  if b = 0 then none else some (a % b)

/-- `YUV_t::get(size_t index)` with every integer division and remainder
checked: `none` when one of them has divisor zero. -/
def YUV_t.getChecked {T : DataByteType} (s : YUV_t T) (index : Nat) : Option YuvF :=
  if index ≥ s.size then
    some { Y := -1, U := -1, V := -1 }
  else do
    let image := s.m_image
    let col ← checkedMod index image.width
    let row ← checkedDiv index image.width
    let uvY := min (u32 (row >>> image.chromaShiftY)) s.MAX_UVY
    let uvX := min (u32 (col >>> image.chromaShiftX)) s.MAX_UVX
    let Y : ℚ := (GetRow T image.Y.data row image.Y.stride col : ℚ) / (((1 <<< image.depth) - 1 : Nat) : ℚ)
    let U : ℚ := (GetRow T image.U.data uvY image.U.stride uvX : ℚ) / (((1 <<< image.depth) - 1 : Nat) : ℚ) - 1 / 2
    let V : ℚ := (GetRow T image.V.data uvY image.V.stride uvX : ℚ) / (((1 <<< image.depth) - 1 : Nat) : ℚ) - 1 / 2
    some { Y := Y, U := U, V := V }

/-- `YUV_t::ConstIter::get()` with every integer division and remainder checked. -/
def YUV_t.ConstIter.getChecked {T : DataByteType} (m_parent : YUV_t T) (m_index m_uvY : Nat) :
    Option YuvF :=
  if m_index ≥ m_parent.size then
    some { Y := -1, U := -1, V := -1 }
  else do
    let image := m_parent.m_image
    let col ← checkedMod m_index image.width
    let row ← checkedDiv m_index image.width
    let uvX := min (u32 (col >>> image.chromaShiftX)) m_parent.MAX_UVX
    let Y : ℚ := (GetRow T image.Y.data row image.Y.stride col : ℚ) / (((1 <<< image.depth) - 1 : Nat) : ℚ)
    let U : ℚ := (GetRow T image.U.data m_uvY image.U.stride uvX : ℚ) / (((1 <<< image.depth) - 1 : Nat) : ℚ) - 1 / 2
    let V : ℚ := (GetRow T image.V.data m_uvY image.V.stride uvX : ℚ) / (((1 <<< image.depth) - 1 : Nat) : ℚ) - 1 / 2
    some { Y := Y, U := U, V := V }

/-- The constructor `ConstIter(const YUV_t& parent, size_t index)` with every
integer division checked: the initialiser of `m_uvY` divides `index` by
`parent.m_image.width` before any range check. -/
def YUV_t.ConstIter.newChecked {T : DataByteType} (parent : YUV_t T) (index : Nat) :
    Option (YUV_t.ConstIter T) := do
  let row ← checkedDiv index parent.m_image.width
  let m_uvY := min (u32 (row >>> parent.m_image.chromaShiftY)) parent.MAX_UVY
  let m_yuv ← YUV_t.ConstIter.getChecked parent index m_uvY
  some { m_parent := parent, m_index := index, m_uvY := m_uvY, m_yuv := m_yuv }

/-- The pre-increment `ConstIter& operator++()` with every integer division
checked: `rowPrev` and `row` are computed before any range check. -/
def YUV_t.ConstIter.preIncChecked {T : DataByteType} (it : YUV_t.ConstIter T) :
    Option (YUV_t.ConstIter T) := do
  let rowPrev ← checkedDiv it.m_index it.m_parent.m_image.width
  let m_index := it.m_index + 1
  let row ← checkedDiv m_index it.m_parent.m_image.width
  let m_uvY :=
    if rowPrev ≠ row then
      min (u32 (row >>> it.m_parent.m_image.chromaShiftY)) it.m_parent.MAX_UVY
    else it.m_uvY
  let m_yuv ←
    if m_index < it.m_parent.size then YUV_t.ConstIter.getChecked it.m_parent m_index m_uvY
    else some it.m_yuv
  some { m_parent := it.m_parent, m_index := m_index, m_uvY := m_uvY, m_yuv := m_yuv }

/-- An image of 1 x 2 pixels without subsampling: `MAX_UVY = 1`. -/
def tallImage : YUVImage := flatImage 1 2 0 0 0 0 0

/-- An image of width `0`. -/
def emptyWidthImage : YUVImage := flatImage 0 3 0 0 0 0 0

/-- An 8-bit image of one pixel with raw samples `Y = 153`, `U = 126`, `V = 19`. -/
def roundingImage : YUVImage := flatImage 1 1 0 0 153 126 19

/-! ## Arithmetic of the sampler -/

theorem u32_le (n : Nat) : u32 n ≤ n := Nat.mod_le _ _

theorem u32_lt (n : Nat) : u32 n < 4294967296 := Nat.mod_lt _ (by decide)

theorem u32_of_lt {n : Nat} (h : n < 4294967296) : u32 n = n := Nat.mod_eq_of_lt h

theorem size_new (T : DataByteType) (image : YUVImage) :
    (YUV_t.new T image).size = u32 (image.width * image.height) := rfl

theorem get_of_size_le {T : DataByteType} (s : YUV_t T) (index : Nat) (h : s.size ≤ index) :
    s.get index = { Y := -1, U := -1, V := -1 } := by
  unfold YUV_t.get
  rw [if_pos h]

/-- The divisor `(float)((1 << depth) - 1)` is `2^depth - 1`. -/
theorem divisor_eq (depth : Nat) : (((1 <<< depth) - 1 : Nat) : ℚ) = 2 ^ depth - 1 := by
  rw [Nat.one_shiftLeft, Nat.cast_sub Nat.one_le_two_pow]
  push_cast
  ring

/-- C1: for every descriptor and every index with `index ≥ width*height`,
`YUV_t::get(index)` is the sentinel `(-1,-1,-1)` whatever the planes hold; in
particular `get(n)` and `get(n+1)` for an `n`-pixel image. -/
theorem get_sentinel_of_ge (T : DataByteType) (image : YUVImage) (index : Nat)
    (h : image.width * image.height ≤ index) :
    (YUV_t.new T image).get index = { Y := -1, U := -1, V := -1 }
    ∧ (YUV_t.new T image).get (image.width * image.height) = { Y := -1, U := -1, V := -1 }
    ∧ (YUV_t.new T image).get (image.width * image.height + 1) = { Y := -1, U := -1, V := -1 } := by
  have hs : (YUV_t.new T image).size ≤ image.width * image.height := u32_le _
  exact ⟨get_of_size_le _ _ (le_trans hs h), get_of_size_le _ _ hs,
    get_of_size_le _ _ (le_trans hs (Nat.le_succ _))⟩

theorem get_sentinel_of_ge_witness :
    rampImage420.width * rampImage420.height ≤ 16
    ∧ ((YUV_t.new .uint8_t rampImage420).get 16 = { Y := -1, U := -1, V := -1 }
      ∧ (YUV_t.new .uint8_t rampImage420).get (rampImage420.width * rampImage420.height)
          = { Y := -1, U := -1, V := -1 }
      ∧ (YUV_t.new .uint8_t rampImage420).get (rampImage420.width * rampImage420.height + 1)
          = { Y := -1, U := -1, V := -1 }) :=
  ⟨by decide, get_sentinel_of_ge .uint8_t rampImage420 16 (by decide)⟩

/-! ## C2: random access reads the unclamped chroma coordinates -/

theorem clamp_noop (n x s : Nat) (hs : s = 0 ∨ s = 1) (hn : n < 4294967296) (hx : x < n) :
    min (u32 (x >>> s)) (u32 ((u32 (n + s) >>> s) + 4294967295)) = x >>> s := by
  rcases hs with rfl | rfl
  · simp only [u32, Nat.shiftRight_zero, Nat.add_zero]
    omega
  · simp only [u32, Nat.shiftRight_eq_div_pow, pow_one]
    omega

/-- In range, `get` normalises the three raw samples it reads. -/
theorem get_of_lt_size {T : DataByteType} (s : YUV_t T) (index : Nat) (h : index < s.size) :
    s.get index =
      { Y := (s.rawY index : ℚ) / (2 ^ s.m_image.depth - 1)
        U := (s.rawU index : ℚ) / (2 ^ s.m_image.depth - 1) - 1 / 2
        V := (s.rawV index : ℚ) / (2 ^ s.m_image.depth - 1) - 1 / 2 } := by
  unfold YUV_t.get
  rw [if_neg (not_le.mpr h)]
  simp only [divisor_eq, YUV_t.rawY, YUV_t.rawU, YUV_t.rawV]

theorem lt_of_mul_lt {w h : Nat} (hw : 0 < w) (hh : 0 < h) (hfit : w * h < 4294967296) :
    w < 4294967296 ∧ h < 4294967296 := by
  constructor <;> nlinarith

/-- C2 (amended): for every descriptor with `width > 0`, `height > 0`,
`width*height < 2^32`, depth in 1..16 and both chroma shifts in {0,1}, and every
`index < width*height`, `YUV_t::get(index)` is the sample of the specification:
luma at `(row, col)` and chroma at `(row >> chromaShiftY, col >> chromaShiftX)`,
normalised by `2^depth - 1`; the clamp against `MAX_UVX` / `MAX_UVY` changes
nothing. -/
theorem get_eq_specSample (T : DataByteType) (image : YUVImage) (index : Nat)
    (hw : 0 < image.width) (hh : 0 < image.height)
    (hfit : image.width * image.height < 4294967296)
    (_hd : 1 ≤ image.depth ∧ image.depth ≤ 16)
    (hsx : image.chromaShiftX = 0 ∨ image.chromaShiftX = 1)
    (hsy : image.chromaShiftY = 0 ∨ image.chromaShiftY = 1)
    (hi : index < image.width * image.height) :
    (YUV_t.new T image).get index = specSample T image index := by
  have hsz : (YUV_t.new T image).size = image.width * image.height := by
    rw [size_new, u32_of_lt hfit]
  have hrow : index / image.width < image.height := Nat.div_lt_of_lt_mul hi
  have hcol : index % image.width < image.width := Nat.mod_lt _ hw
  obtain ⟨hwlt, hhlt⟩ := lt_of_mul_lt hw hh hfit
  rw [get_of_lt_size _ _ (by rw [hsz]; exact hi)]
  simp only [YUV_t.rawY, YUV_t.rawU, YUV_t.rawV, YUV_t.new, specSample]
  rw [clamp_noop image.height _ _ hsy hhlt hrow, clamp_noop image.width _ _ hsx hwlt hcol]

theorem get_eq_specSample_witness :
    (YUV_t.new .uint8_t rampImage420).get 15 = specSample .uint8_t rampImage420 15 :=
  get_eq_specSample .uint8_t rampImage420 15 (by decide) (by decide) (by decide)
    (by decide) (by decide) (by decide) (by decide)

/-- C2 as stated fails when `width*height` does not fit in 32 bits: on the
65536 x 65536 image `size()` is `0`, so `get(0)` is the sentinel and not the
sample of pixel 0. -/
theorem get_ne_specSample_65536 :
    0 < squareImage65536.width ∧ 0 < squareImage65536.height
    ∧ (1 ≤ squareImage65536.depth ∧ squareImage65536.depth ≤ 16)
    ∧ squareImage65536.chromaShiftX = 0 ∧ squareImage65536.chromaShiftY = 0
    ∧ 0 < squareImage65536.width * squareImage65536.height
    ∧ (YUV_t.new .uint8_t squareImage65536).get 0 = { Y := -1, U := -1, V := -1 }
    ∧ specSample .uint8_t squareImage65536 0 = { Y := 0, U := -1 / 2, V := -1 / 2 }
    ∧ (YUV_t.new .uint8_t squareImage65536).get 0 ≠ specSample .uint8_t squareImage65536 0 := by
  have hget : (YUV_t.new .uint8_t squareImage65536).get 0 = { Y := -1, U := -1, V := -1 } :=
    get_of_size_le _ _ (by decide)
  have hspec : specSample .uint8_t squareImage65536 0 = { Y := 0, U := -1 / 2, V := -1 / 2 } := by
    norm_num [specSample, squareImage65536, flatImage, constPlane, GetRow, readLE,
      DataByteType.sizeof]
  refine ⟨by decide, by decide, by decide, by decide, by decide, by decide, hget, hspec, ?_⟩
  rw [hget, hspec]
  intro h
  have := congrArg YuvF.Y h
  norm_num at this

/-! ## C3: the sampler's sequence against random access -/

/-- Decoding with the chroma row of the current luma row is random access. -/
theorem ConstIter_get_eq_get {T : DataByteType} (s : YUV_t T) (i : Nat) :
    YUV_t.ConstIter.get s i
      (min (u32 ((i / s.m_image.width) >>> s.m_image.chromaShiftY)) s.MAX_UVY) = s.get i := rfl

/-- The position reached from `ConstIter(s, j)` by `k` advances: its index is
`j + k`, its cached chroma row is the one of luma row `(j + k) / width`, and its
value is the sample of the last index below `size()` it has visited. -/
theorem iterate_preInc_new {T : DataByteType} (s : YUV_t T) (j k : Nat) :
    Nat.iterate YUV_t.ConstIter.preInc k (YUV_t.ConstIter.new s j) =
      { m_parent := s
        m_index := j + k
        m_uvY := min (u32 (((j + k) / s.m_image.width) >>> s.m_image.chromaShiftY)) s.MAX_UVY
        m_yuv := if j < s.size then s.get (min (j + k) (s.size - 1))
                 else { Y := -1, U := -1, V := -1 } } := by
  induction k with
  | zero =>
    simp only [Function.iterate_zero, id_eq, Nat.add_zero, YUV_t.ConstIter.new,
      ConstIter_get_eq_get]
    congr 1
    by_cases hj : j < s.size
    · rw [if_pos hj, Nat.min_eq_left (by omega)]
    · rw [if_neg hj, get_of_size_le _ _ (not_lt.mp hj)]
  | succ k ih =>
    rw [Function.iterate_succ_apply', ih]
    simp only [YUV_t.ConstIter.preInc]
    have huv : (if (j + k) / s.m_image.width ≠ (j + k + 1) / s.m_image.width then
          min (u32 (((j + k + 1) / s.m_image.width) >>> s.m_image.chromaShiftY)) s.MAX_UVY
        else min (u32 (((j + k) / s.m_image.width) >>> s.m_image.chromaShiftY)) s.MAX_UVY)
        = min (u32 (((j + k + 1) / s.m_image.width) >>> s.m_image.chromaShiftY)) s.MAX_UVY := by
      by_cases hr : (j + k) / s.m_image.width = (j + k + 1) / s.m_image.width
      · rw [if_neg (not_not.mpr hr), hr]
      · rw [if_pos hr]
    rw [huv, ConstIter_get_eq_get]
    congr 1
    by_cases hlt : j + k + 1 < s.size
    · have hj : j < s.size := by omega
      rw [if_pos hlt, if_pos hj, Nat.add_assoc, Nat.min_eq_left (by omega)]
    · rw [if_neg hlt]
      by_cases hj : j < s.size
      · rw [if_pos hj, if_pos hj, Nat.min_eq_right (by omega), Nat.min_eq_right (by omega)]
      · rw [if_neg hj, if_neg hj]

/-- From `begin()`, `k` advances with `k < size()` give the value of `get(k)`. -/
theorem deref_iterate_begin {T : DataByteType} (s : YUV_t T) (k : Nat) (hk : k < s.size) :
    (Nat.iterate YUV_t.ConstIter.preInc k s.begin).deref = s.get k := by
  have h0 : 0 < s.size := by omega
  rw [YUV_t.begin, iterate_preInc_new]
  simp only [YUV_t.ConstIter.deref, if_pos h0, Nat.zero_add]
  rw [Nat.min_eq_left (by omega)]

/-- C3 (amended): for every descriptor with `width > 0`, `height > 0` and
`width*height < 2^32`, and every `k < width*height`, dereferencing `begin()`
after `k` pre-increments gives the value of random access `get(k)`, for any
chroma shifts. -/
theorem deref_preInc_eq_get (T : DataByteType) (image : YUVImage) (k : Nat)
    (_hw : 0 < image.width) (_hh : 0 < image.height)
    (hfit : image.width * image.height < 4294967296)
    (hk : k < image.width * image.height) :
    (Nat.iterate YUV_t.ConstIter.preInc k (YUV_t.new T image).begin).deref
      = (YUV_t.new T image).get k := by
  apply deref_iterate_begin
  rw [size_new, u32_of_lt hfit]
  exact hk

theorem deref_preInc_eq_get_witness :
    (Nat.iterate YUV_t.ConstIter.preInc 9 (YUV_t.new .uint8_t rampImage420).begin).deref
      = (YUV_t.new .uint8_t rampImage420).get 9 :=
  deref_preInc_eq_get .uint8_t rampImage420 9 (by decide) (by decide) (by decide) (by decide)

/-- C3 as stated fails when `width*height` does not fit in 32 bits: on the
2147483649 x 2 image `size()` is `2`; after two advances the position still
holds the sample of pixel 1, while `get(2)` is the sentinel. -/
theorem deref_preInc_ne_get_wide :
    0 < wideImage.width ∧ 0 < wideImage.height
    ∧ 2 < wideImage.width * wideImage.height
    ∧ (Nat.iterate YUV_t.ConstIter.preInc 2 (YUV_t.new .uint8_t wideImage).begin).deref
        = { Y := 0, U := -1 / 2, V := -1 / 2 }
    ∧ (YUV_t.new .uint8_t wideImage).get 2 = { Y := -1, U := -1, V := -1 }
    ∧ (Nat.iterate YUV_t.ConstIter.preInc 2 (YUV_t.new .uint8_t wideImage).begin).deref
        ≠ (YUV_t.new .uint8_t wideImage).get 2 := by
  have hsz : (YUV_t.new .uint8_t wideImage).size = 2 := by decide
  have hget : (YUV_t.new .uint8_t wideImage).get 2 = { Y := -1, U := -1, V := -1 } :=
    get_of_size_le _ _ (by rw [hsz])
  have hit : (Nat.iterate YUV_t.ConstIter.preInc 2 (YUV_t.new .uint8_t wideImage).begin).deref
      = { Y := 0, U := -1 / 2, V := -1 / 2 } := by
    rw [YUV_t.begin, iterate_preInc_new]
    simp only [YUV_t.ConstIter.deref, hsz]
    rw [if_pos (by decide), get_of_lt_size _ _ (by rw [hsz]; decide)]
    norm_num [YUV_t.rawY, YUV_t.rawU, YUV_t.rawV, YUV_t.new, wideImage, flatImage, constPlane,
      GetRow, readLE, DataByteType.sizeof]
  refine ⟨by decide, by decide, by decide, hit, hget, ?_⟩
  rw [hit, hget]
  intro h
  have := congrArg YuvF.Y h
  norm_num at this

/-! ## C4: the clamp constants -/

/-- For shifts 0 and 1, a positive dimension and no 32-bit wrap of `n + shift`,
the constant of the constructor is the one of the specification. -/
theorem MAX_UV_eq_spec_of_shift_le_one (n s : Nat) (hs : s = 0 ∨ s = 1) (hn : 0 < n)
    (hfit : n + s < 4294967296) :
    ((u32 ((u32 (n + s) >>> s) + 4294967295) : Nat) : ℤ) = specMaxUV n s := by
  rcases hs with rfl | rfl
  · have h : u32 ((u32 (n + 0) >>> 0) + 4294967295) = n - 1 := by
      simp only [u32, Nat.shiftRight_zero, Nat.add_zero]
      omega
    rw [h, specMaxUV, pow_zero, div_one, Int.ceil_natCast]
    omega
  · rcases Nat.even_or_odd' n with ⟨q, rfl | rfl⟩
    · have h : u32 ((u32 (2 * q + 1) >>> 1) + 4294967295) = q - 1 := by
        simp only [u32, Nat.shiftRight_eq_div_pow, pow_one]
        omega
      have hc : ⌈((2 * q : ℕ) : ℚ) / 2 ^ 1⌉ = (q : ℤ) := by
        rw [Int.ceil_eq_iff]
        push_cast
        constructor <;> linarith
      rw [h, specMaxUV, hc]
      omega
    · have h : u32 ((u32 (2 * q + 1 + 1) >>> 1) + 4294967295) = q := by
        simp only [u32, Nat.shiftRight_eq_div_pow, pow_one]
        omega
      have hc : ⌈((2 * q + 1 : ℕ) : ℚ) / 2 ^ 1⌉ = (q : ℤ) + 1 := by
        rw [Int.ceil_eq_iff]
        push_cast
        constructor <;> linarith
      rw [h, specMaxUV, hc]
      omega

/-- C4 (the code departs from the claim): on the 5 x 1 image with
`chromaShiftX = 2` the constructor sets `MAX_UVX = ((5 + 2) >> 2) - 1 = 0`, while
`ceil(5 / 2^2) - 1 = 1`; `get(4)` therefore reads chroma column `0` and not
column `4 >> 2 = 1`. -/
theorem MAX_UVX_rampImage5 :
    (YUV_t.new .uint8_t rampImage5).MAX_UVX = 0
    ∧ specMaxUV rampImage5.width rampImage5.chromaShiftX = 1
    ∧ min (u32 ((4 % rampImage5.width) >>> rampImage5.chromaShiftX))
        (YUV_t.new .uint8_t rampImage5).MAX_UVX = 0
    ∧ (4 % rampImage5.width) >>> rampImage5.chromaShiftX = 1
    ∧ ((YUV_t.new .uint8_t rampImage5).get 4).U = -1 / 2
    ∧ (specSample .uint8_t rampImage5 4).U = 1 / 255 - 1 / 2 := by
  have hmax : (YUV_t.new .uint8_t rampImage5).MAX_UVX = 0 := by decide
  have hspec : specMaxUV rampImage5.width rampImage5.chromaShiftX = 1 := by
    have h : ⌈((5 : ℕ) : ℚ) / 2 ^ 2⌉ = 2 := by
      rw [Int.ceil_eq_iff]
      norm_num
    simp only [specMaxUV, rampImage5, h]
    norm_num
  have hsz : (YUV_t.new .uint8_t rampImage5).size = 5 := by decide
  refine ⟨hmax, hspec, by decide, by decide, ?_, ?_⟩
  · rw [get_of_lt_size _ _ (by rw [hsz]; decide)]
    have hU : (YUV_t.new .uint8_t rampImage5).rawU 4 = 0 := by decide
    rw [hU]
    norm_num
  · have hU : GetRow .uint8_t rampImage5.U.data ((4 / rampImage5.width) >>> rampImage5.chromaShiftY)
        rampImage5.U.stride ((4 % rampImage5.width) >>> rampImage5.chromaShiftX) = 1 := by decide
    simp only [specSample, hU]
    norm_num [rampImage5]

/-! ## C5, C6: the matrix formula in exact arithmetic -/

/-- C5: for every coefficient triple with `kg ≠ 0` and every `Y`, the formula
maps `(Y, 0, 0)` to `R = G = B = Y`; white `(1,0,0)` gives `(1,1,1)`, black
`(0,0,0)` gives `(0,0,0)`; the three presets have `kg ≠ 0`. -/
theorem formula_grey (p : CvtConstantParamerter) (Y : ℚ) (_hkg : p.kg ≠ 0) :
    RGBFloat.formula p { Y := Y, U := 0, V := 0 } = { R := Y, G := Y, B := Y }
    ∧ RGBFloat.formula p { Y := 1, U := 0, V := 0 } = { R := 1, G := 1, B := 1 }
    ∧ RGBFloat.formula p { Y := 0, U := 0, V := 0 } = { R := 0, G := 0, B := 0 }
    ∧ CvtConstantParamerter.BT601.kg ≠ 0
    ∧ CvtConstantParamerter.BT709.kg ≠ 0
    ∧ CvtConstantParamerter.BT2020.kg ≠ 0 := by
  refine ⟨?_, ?_, ?_, ?_, ?_, ?_⟩
  · simp [RGBFloat.formula]
  · simp [RGBFloat.formula]
  · simp [RGBFloat.formula]
  · norm_num [CvtConstantParamerter.BT601]
  · norm_num [CvtConstantParamerter.BT709]
  · norm_num [CvtConstantParamerter.BT2020]

theorem formula_grey_witness :
    CvtConstantParamerter.BT709.kg ≠ 0
    ∧ RGBFloat.formula CvtConstantParamerter.BT709 { Y := 1 / 2, U := 0, V := 0 }
        = { R := 1 / 2, G := 1 / 2, B := 1 / 2 } :=
  ⟨by norm_num [CvtConstantParamerter.BT709],
   (formula_grey CvtConstantParamerter.BT709 (1 / 2)
      (by norm_num [CvtConstantParamerter.BT709])).1⟩

/-- Decoding undoes the forward encoding for every coefficient triple with
`kr + kg + kb = 1`, `kg ≠ 0`, `kr ≠ 1` and `kb ≠ 1`. -/
theorem formula_specEncode_of_sum (p : CvtConstantParamerter) (rgb : RgbF)
    (hsum : p.kr + p.kg + p.kb = 1) (hkg : p.kg ≠ 0) (hkr : p.kr ≠ 1) (hkb : p.kb ≠ 1) :
    RGBFloat.formula p (specEncode p rgb) = rgb := by
  obtain ⟨R, G, B⟩ := rgb
  have h1 : (1 : ℚ) - p.kr ≠ 0 := sub_ne_zero.mpr (Ne.symm hkr)
  have h2 : (1 : ℚ) - p.kb ≠ 0 := sub_ne_zero.mpr (Ne.symm hkb)
  have hg : p.kg = 1 - p.kr - p.kb := by linarith
  simp only [RGBFloat.formula, specEncode, RgbF.mk.injEq]
  refine ⟨?_, ?_, ?_⟩
  · field_simp
  · have e : (2 * (p.kr * (1 - p.kr) * ((R - (p.kr * R + p.kg * G + p.kb * B)) / (2 * (1 - p.kr)))
        + p.kb * (1 - p.kb) * ((B - (p.kr * R + p.kg * G + p.kb * B)) / (2 * (1 - p.kb)))))
        = p.kr * (R - (p.kr * R + p.kg * G + p.kb * B))
          + p.kb * (B - (p.kr * R + p.kg * G + p.kb * B)) := by
      field_simp
      ring
    rw [e]
    field_simp
    rw [hg]
    ring
  · field_simp

theorem preset_facts (p : CvtConstantParamerter)
    (hp : p = CvtConstantParamerter.BT601 ∨ p = CvtConstantParamerter.BT709
      ∨ p = CvtConstantParamerter.BT2020) :
    p.kr + p.kg + p.kb = 1 ∧ p.kg ≠ 0 ∧ p.kr ≠ 1 ∧ p.kb ≠ 1 := by
  rcases hp with rfl | rfl | rfl
  · norm_num [CvtConstantParamerter.BT601]
  · norm_num [CvtConstantParamerter.BT709]
  · norm_num [CvtConstantParamerter.BT2020]

/-- C6: for each of the presets `BT601()`, `BT709()`, `BT2020()` (for which
`kr + kg + kb = 1` and `kg ≠ 0`) and every RGB triple, forward encoding followed
by the converter's formula returns the triple; pure red under BT.601 encodes to
`Y = 0.299` and decodes to `(1,0,0)`. -/
theorem formula_specEncode (p : CvtConstantParamerter) (rgb : RgbF)
    (hp : p = CvtConstantParamerter.BT601 ∨ p = CvtConstantParamerter.BT709
      ∨ p = CvtConstantParamerter.BT2020) :
    (p.kr + p.kg + p.kb = 1 ∧ p.kg ≠ 0)
    ∧ RGBFloat.formula p (specEncode p rgb) = rgb
    ∧ (specEncode CvtConstantParamerter.BT601 { R := 1, G := 0, B := 0 }).Y = 299 / 1000
    ∧ RGBFloat.formula CvtConstantParamerter.BT601
        (specEncode CvtConstantParamerter.BT601 { R := 1, G := 0, B := 0 })
        = { R := 1, G := 0, B := 0 } := by
  obtain ⟨hsum, hkg, hkr, hkb⟩ := preset_facts p hp
  obtain ⟨hsum1, hkg1, hkr1, hkb1⟩ := preset_facts CvtConstantParamerter.BT601 (Or.inl rfl)
  refine ⟨⟨hsum, hkg⟩, formula_specEncode_of_sum p rgb hsum hkg hkr hkb, ?_,
    formula_specEncode_of_sum _ _ hsum1 hkg1 hkr1 hkb1⟩
  norm_num [specEncode, CvtConstantParamerter.BT601]

theorem formula_specEncode_witness :
    RGBFloat.formula CvtConstantParamerter.BT2020
        (specEncode CvtConstantParamerter.BT2020 { R := 1 / 4, G := 1 / 2, B := 3 / 4 })
      = { R := 1 / 4, G := 1 / 2, B := 3 / 4 } :=
  (formula_specEncode CvtConstantParamerter.BT2020 { R := 1 / 4, G := 1 / 2, B := 3 / 4 }
    (Or.inr (Or.inr rfl))).2.1

/-! ## C7: raw white at depth 8 -/

theorem get_new_of_lt (T : DataByteType) (image : YUVImage) (index : Nat)
    (hfit : image.width * image.height < 4294967296)
    (hi : index < image.width * image.height) :
    (YUV_t.new T image).get index =
      { Y := ((YUV_t.new T image).rawY index : ℚ) / (2 ^ image.depth - 1)
        U := ((YUV_t.new T image).rawU index : ℚ) / (2 ^ image.depth - 1) - 1 / 2
        V := ((YUV_t.new T image).rawV index : ℚ) / (2 ^ image.depth - 1) - 1 / 2 } :=
  get_of_lt_size _ _ (by rw [size_new, u32_of_lt hfit]; exact hi)

/-- C7 (amended): for a depth-8 image with 1-byte samples and
`width*height < 2^32`, at a pixel whose raw samples are `Y = 255`, `U = 128`,
`V = 128` the converter's `get` yields, under each of the three presets,
`R = 1 + (1 - kr)/255`, `G = 1 - (kr(1 - kr) + kb(1 - kb))/(255 kg)`,
`B = 1 + (1 - kb)/255`: every channel is within `1/255` of `1`, and none is `1`. -/
theorem get_white (image : YUVImage) (index : Nat) (p : CvtConstantParamerter)
    (hd : image.depth = 8)
    (hfit : image.width * image.height < 4294967296)
    (hi : index < image.width * image.height)
    (hY : (YUV_t.new .uint8_t image).rawY index = 255)
    (hU : (YUV_t.new .uint8_t image).rawU index = 128)
    (hV : (YUV_t.new .uint8_t image).rawV index = 128)
    (hp : p = CvtConstantParamerter.BT601 ∨ p = CvtConstantParamerter.BT709
      ∨ p = CvtConstantParamerter.BT2020) :
    (RGBFloat.get { m_yuvs := YUV_t.new .uint8_t image, m_param := p } index
        = { R := 1 + (1 - p.kr) / 255
            G := 1 - (p.kr * (1 - p.kr) + p.kb * (1 - p.kb)) / (255 * p.kg)
            B := 1 + (1 - p.kb) / 255 })
    ∧ |(RGBFloat.get { m_yuvs := YUV_t.new .uint8_t image, m_param := p } index).R - 1| ≤ 1 / 255
    ∧ |(RGBFloat.get { m_yuvs := YUV_t.new .uint8_t image, m_param := p } index).G - 1| ≤ 1 / 255
    ∧ |(RGBFloat.get { m_yuvs := YUV_t.new .uint8_t image, m_param := p } index).B - 1| ≤ 1 / 255
    ∧ (RGBFloat.get { m_yuvs := YUV_t.new .uint8_t image, m_param := p } index).R ≠ 1
    ∧ (RGBFloat.get { m_yuvs := YUV_t.new .uint8_t image, m_param := p } index).G ≠ 1
    ∧ (RGBFloat.get { m_yuvs := YUV_t.new .uint8_t image, m_param := p } index).B ≠ 1 := by
  have hget : RGBFloat.get { m_yuvs := YUV_t.new .uint8_t image, m_param := p } index
      = RGBFloat.formula p { Y := 1, U := 1 / 510, V := 1 / 510 } := by
    simp only [RGBFloat.get]
    rw [get_new_of_lt _ _ _ hfit hi, hY, hU, hV, hd]
    norm_num
  rw [hget]
  rcases hp with rfl | rfl | rfl
  · norm_num [RGBFloat.formula, CvtConstantParamerter.BT601, abs_le]
  · norm_num [RGBFloat.formula, CvtConstantParamerter.BT709, abs_le]
  · norm_num [RGBFloat.formula, CvtConstantParamerter.BT2020, abs_le]

theorem get_white_witness :
    (RGBFloat.get { m_yuvs := YUV_t.new .uint8_t whiteImage,
                    m_param := CvtConstantParamerter.BT709 } 0).R ≠ 1 :=
  (get_white whiteImage 0 CvtConstantParamerter.BT709 (by decide) (by decide) (by decide)
    (by decide) (by decide) (by decide) (Or.inr (Or.inl rfl))).2.2.2.2.1

/-- C7 as stated fails: on the one-pixel image with raw samples 255, 128, 128 at
depth 8, the converter's `get(0)` has `R = 1 + 701/255000` under BT.601,
`R = 1 + 7874/2550000` under BT.709 and `R = 1 + 7373/2550000` under BT.2020. -/
theorem get_white_ne_one :
    whiteImage.depth = 8
    ∧ (YUV_t.new .uint8_t whiteImage).rawY 0 = 255
    ∧ (YUV_t.new .uint8_t whiteImage).rawU 0 = 128
    ∧ (YUV_t.new .uint8_t whiteImage).rawV 0 = 128
    ∧ (RGBFloat.get { m_yuvs := YUV_t.new .uint8_t whiteImage,
                      m_param := CvtConstantParamerter.BT601 } 0).R = 1 + 701 / 255000
    ∧ (RGBFloat.get { m_yuvs := YUV_t.new .uint8_t whiteImage,
                      m_param := CvtConstantParamerter.BT709 } 0).R = 1 + 7874 / 2550000
    ∧ (RGBFloat.get { m_yuvs := YUV_t.new .uint8_t whiteImage,
                      m_param := CvtConstantParamerter.BT2020 } 0).R = 1 + 7373 / 2550000
    ∧ RGBFloat.get { m_yuvs := YUV_t.new .uint8_t whiteImage,
                     m_param := CvtConstantParamerter.BT601 } 0 ≠ { R := 1, G := 1, B := 1 } := by
  have hget : (YUV_t.new .uint8_t whiteImage).get 0 = { Y := 1, U := 1 / 510, V := 1 / 510 } := by
    rw [get_of_lt_size _ _ (by decide)]
    have hY : (YUV_t.new .uint8_t whiteImage).rawY 0 = 255 := by decide
    have hU : (YUV_t.new .uint8_t whiteImage).rawU 0 = 128 := by decide
    have hV : (YUV_t.new .uint8_t whiteImage).rawV 0 = 128 := by decide
    have hd : (YUV_t.new .uint8_t whiteImage).m_image.depth = 8 := rfl
    rw [hY, hU, hV, hd]
    norm_num
  refine ⟨rfl, by decide, by decide, by decide, ?_, ?_, ?_, ?_⟩
  · simp only [RGBFloat.get, hget]
    norm_num [RGBFloat.formula, CvtConstantParamerter.BT601]
  · simp only [RGBFloat.get, hget]
    norm_num [RGBFloat.formula, CvtConstantParamerter.BT709]
  · simp only [RGBFloat.get, hget]
    norm_num [RGBFloat.formula, CvtConstantParamerter.BT2020]
  · intro h
    have hR := congrArg RgbF.R h
    simp only [RGBFloat.get, hget] at hR
    norm_num [RGBFloat.formula, CvtConstantParamerter.BT601] at hR

/-! ## C8: the range of the normalised sample -/

theorem two_pow_sub_one_pos {d : Nat} (hd : 1 ≤ d) : (0 : ℚ) < 2 ^ d - 1 := by
  have h : (2 : ℚ) ^ 1 ≤ 2 ^ d := pow_le_pow_right₀ (by norm_num) hd
  norm_num at h
  linarith

theorem norm_bounds {d raw : Nat} (hd : 1 ≤ d) (hraw : raw ≤ 2 ^ d - 1) :
    0 ≤ (raw : ℚ) / (2 ^ d - 1) ∧ (raw : ℚ) / (2 ^ d - 1) ≤ 1 := by
  have hpos := two_pow_sub_one_pos hd
  have hcast : (raw : ℚ) ≤ 2 ^ d - 1 := by
    have h1 : ((2 ^ d - 1 : Nat) : ℚ) = 2 ^ d - 1 := by
      rw [Nat.cast_sub Nat.one_le_two_pow]
      push_cast
      ring
    rw [← h1]
    exact_mod_cast hraw
  exact ⟨div_nonneg (Nat.cast_nonneg _) hpos.le, (div_le_one hpos).mpr hcast⟩

/-- C8 (amended): for every descriptor with `width > 0`, `width*height < 2^32`
and depth `d` in 1..16, and every `index < width*height` whose raw samples are
at most `2^d - 1`, `YUV_t::get(index)` has `0 ≤ Y ≤ 1` and `-1/2 ≤ U, V ≤ 1/2`,
so it is not the sentinel; raw luma `2^d - 1` gives `Y = 1`, raw luma `0` gives
`Y = 0`, and at depth 8 raw chroma `128` gives a centred value of absolute value
at most `1/255`. -/
theorem get_range (T : DataByteType) (image : YUVImage) (index : Nat)
    (_hw : 0 < image.width)
    (hfit : image.width * image.height < 4294967296)
    (hd : 1 ≤ image.depth ∧ image.depth ≤ 16)
    (hi : index < image.width * image.height)
    (hY : (YUV_t.new T image).rawY index ≤ 2 ^ image.depth - 1)
    (hU : (YUV_t.new T image).rawU index ≤ 2 ^ image.depth - 1)
    (hV : (YUV_t.new T image).rawV index ≤ 2 ^ image.depth - 1) :
    (0 ≤ ((YUV_t.new T image).get index).Y ∧ ((YUV_t.new T image).get index).Y ≤ 1)
    ∧ (-1 / 2 ≤ ((YUV_t.new T image).get index).U ∧ ((YUV_t.new T image).get index).U ≤ 1 / 2)
    ∧ (-1 / 2 ≤ ((YUV_t.new T image).get index).V ∧ ((YUV_t.new T image).get index).V ≤ 1 / 2)
    ∧ (YUV_t.new T image).get index ≠ { Y := -1, U := -1, V := -1 }
    ∧ ((YUV_t.new T image).rawY index = 2 ^ image.depth - 1 →
        ((YUV_t.new T image).get index).Y = 1)
    ∧ ((YUV_t.new T image).rawY index = 0 → ((YUV_t.new T image).get index).Y = 0)
    ∧ (image.depth = 8 → (YUV_t.new T image).rawU index = 128 →
        |((YUV_t.new T image).get index).U| ≤ 1 / 255)
    ∧ (image.depth = 8 → (YUV_t.new T image).rawV index = 128 →
        |((YUV_t.new T image).get index).V| ≤ 1 / 255) := by
  have hget := get_new_of_lt T image index hfit hi
  have hpos := two_pow_sub_one_pos hd.1
  obtain ⟨hY0, hY1⟩ := norm_bounds hd.1 hY
  obtain ⟨hU0, hU1⟩ := norm_bounds hd.1 hU
  obtain ⟨hV0, hV1⟩ := norm_bounds hd.1 hV
  rw [hget]
  refine ⟨⟨hY0, hY1⟩, ⟨by simp only; linarith, by simp only; linarith⟩,
    ⟨by simp only; linarith, by simp only; linarith⟩, ?_, ?_, ?_, ?_, ?_⟩
  · intro h
    have hYeq := congrArg YuvF.Y h
    simp only at hYeq
    linarith
  · intro h
    simp only [h]
    rw [Nat.cast_sub Nat.one_le_two_pow]
    push_cast
    exact div_self hpos.ne'
  · intro h
    simp only [h]
    norm_num
  · intro h8 h
    simp only [h, h8]
    norm_num [abs_le]
  · intro h8 h
    simp only [h, h8]
    norm_num [abs_le]

theorem get_range_witness :
    ((YUV_t.new .uint8_t rampImage420).get 15).Y ≤ 1
    ∧ (YUV_t.new .uint8_t rampImage420).get 15 ≠ { Y := -1, U := -1, V := -1 } :=
  have h := get_range .uint8_t rampImage420 15 (by decide) (by decide) (by decide) (by decide)
    (by decide) (by decide) (by decide)
  ⟨h.1.2, h.2.2.2.1⟩

/-- C8 as stated fails when `width*height` does not fit in 32 bits: on the black
65536 x 65536 image every raw sample is `0`, `0 < width*height`, and `get(0)` is
the sentinel, whose `Y = -1` is negative. -/
theorem get_range_fails_65536 :
    0 < squareImage65536.width
    ∧ (1 ≤ squareImage65536.depth ∧ squareImage65536.depth ≤ 16)
    ∧ 0 < squareImage65536.width * squareImage65536.height
    ∧ (YUV_t.new .uint8_t squareImage65536).rawY 0 = 0
    ∧ (YUV_t.new .uint8_t squareImage65536).rawU 0 = 0
    ∧ (YUV_t.new .uint8_t squareImage65536).rawV 0 = 0
    ∧ (YUV_t.new .uint8_t squareImage65536).get 0 = { Y := -1, U := -1, V := -1 }
    ∧ ((YUV_t.new .uint8_t squareImage65536).get 0).Y < 0 := by
  have hget : (YUV_t.new .uint8_t squareImage65536).get 0 = { Y := -1, U := -1, V := -1 } :=
    get_of_size_le _ _ (by decide)
  refine ⟨by decide, by decide, by decide, by decide, by decide, by decide, hget, ?_⟩
  rw [hget]
  norm_num

/-! ## C9: the converter's sequence against random access -/

/-- The position reached from the converter's `begin()` by `k` advances wraps
the sampler's position after `k` advances; its value is `get(0)` before the
first advance and the formula applied to the sampler's current value after. -/
theorem iterate_preInc_rgb {T : DataByteType} (c : RGBFloat T) (k : Nat) :
    Nat.iterate RGBFloat.ConstIter.preInc k c.begin =
      { m_parent := c
        m_yuvIter := Nat.iterate YUV_t.ConstIter.preInc k c.m_yuvs.begin
        m_index := k
        m_rgb := if k = 0 then c.get 0
                 else RGBFloat.formula c.m_param
                        (Nat.iterate YUV_t.ConstIter.preInc k c.m_yuvs.begin).deref } := by
  induction k with
  | zero => rfl
  | succ k ih =>
    rw [Function.iterate_succ_apply', ih]
    simp only [RGBFloat.ConstIter.preInc, RGBFloat.ConstIter.get, Function.iterate_succ_apply',
      if_neg (Nat.succ_ne_zero k)]

/-- From the converter's `begin()`, `k` advances with `k < size()` give the
value of `RGBFloat::get(k)`. -/
theorem deref_iterate_rgb {T : DataByteType} (c : RGBFloat T) (k : Nat)
    (hk : k < c.m_yuvs.size) :
    (Nat.iterate RGBFloat.ConstIter.preInc k c.begin).deref = c.get k := by
  rw [iterate_preInc_rgb]
  simp only [RGBFloat.ConstIter.deref]
  by_cases h0 : k = 0
  · rw [if_pos h0, h0]
  · rw [if_neg h0, deref_iterate_begin _ _ hk]
    rfl

/-- C9 (amended): for every converter over a descriptor with `width > 0`,
`height > 0` and `width*height < 2^32`, and every `k < width*height`,
dereferencing the converter's `begin()` after `k` pre-increments gives
`RGBFloat::get(k)`, the matrix formula applied to the sampler's `get(k)`. -/
theorem rgb_deref_preInc_eq_get (T : DataByteType) (image : YUVImage)
    (p : CvtConstantParamerter) (k : Nat)
    (_hw : 0 < image.width) (_hh : 0 < image.height)
    (hfit : image.width * image.height < 4294967296)
    (hk : k < image.width * image.height) :
    (Nat.iterate RGBFloat.ConstIter.preInc k
        (RGBFloat.begin { m_yuvs := YUV_t.new T image, m_param := p })).deref
      = RGBFloat.get { m_yuvs := YUV_t.new T image, m_param := p } k
    ∧ RGBFloat.get { m_yuvs := YUV_t.new T image, m_param := p } k
      = RGBFloat.formula p ((YUV_t.new T image).get k) := by
  refine ⟨deref_iterate_rgb _ _ ?_, rfl⟩
  show k < (YUV_t.new T image).size
  rw [size_new, u32_of_lt hfit]
  exact hk

theorem rgb_deref_preInc_eq_get_witness :
    (Nat.iterate RGBFloat.ConstIter.preInc 6
        (RGBFloat.begin { m_yuvs := YUV_t.new .uint8_t rampImage420,
                          m_param := CvtConstantParamerter.BT601 })).deref
      = RGBFloat.get { m_yuvs := YUV_t.new .uint8_t rampImage420,
                       m_param := CvtConstantParamerter.BT601 } 6 :=
  (rgb_deref_preInc_eq_get .uint8_t rampImage420 CvtConstantParamerter.BT601 6
    (by decide) (by decide) (by decide) (by decide)).1

/-- C9 as stated fails when `width*height` does not fit in 32 bits: on the
2147483649 x 2 image `size()` is `2`; after two advances the converter's position
holds the formula of the stale sample of pixel 1 (`R = -701/1000` under BT.601),
while `get(2)` is the formula of the sentinel (`R = -2402/1000`). -/
theorem rgb_deref_preInc_ne_get_wide :
    0 < wideImage.width ∧ 0 < wideImage.height
    ∧ 2 < wideImage.width * wideImage.height
    ∧ ((Nat.iterate RGBFloat.ConstIter.preInc 2
          (RGBFloat.begin { m_yuvs := YUV_t.new .uint8_t wideImage,
                            m_param := CvtConstantParamerter.BT601 })).deref).R = -701 / 1000
    ∧ (RGBFloat.get { m_yuvs := YUV_t.new .uint8_t wideImage,
                      m_param := CvtConstantParamerter.BT601 } 2).R = -2402 / 1000
    ∧ (Nat.iterate RGBFloat.ConstIter.preInc 2
          (RGBFloat.begin { m_yuvs := YUV_t.new .uint8_t wideImage,
                            m_param := CvtConstantParamerter.BT601 })).deref
        ≠ RGBFloat.get { m_yuvs := YUV_t.new .uint8_t wideImage,
                         m_param := CvtConstantParamerter.BT601 } 2 := by
  have hsz : (YUV_t.new .uint8_t wideImage).size = 2 := by decide
  have hget : (YUV_t.new .uint8_t wideImage).get 2 = { Y := -1, U := -1, V := -1 } :=
    get_of_size_le _ _ (by rw [hsz])
  have hit : (Nat.iterate YUV_t.ConstIter.preInc 2 (YUV_t.new .uint8_t wideImage).begin).deref
      = { Y := 0, U := -1 / 2, V := -1 / 2 } := by
    rw [YUV_t.begin, iterate_preInc_new]
    simp only [YUV_t.ConstIter.deref, hsz]
    rw [if_pos (by decide), get_of_lt_size _ _ (by rw [hsz]; decide)]
    norm_num [YUV_t.rawY, YUV_t.rawU, YUV_t.rawV, YUV_t.new, wideImage, flatImage, constPlane,
      GetRow, readLE, DataByteType.sizeof]
  have hL : ((Nat.iterate RGBFloat.ConstIter.preInc 2
          (RGBFloat.begin { m_yuvs := YUV_t.new .uint8_t wideImage,
                            m_param := CvtConstantParamerter.BT601 })).deref).R = -701 / 1000 := by
    rw [iterate_preInc_rgb]
    simp only [RGBFloat.ConstIter.deref, if_neg (by decide : ¬ (2 = 0)), hit]
    norm_num [RGBFloat.formula, CvtConstantParamerter.BT601]
  have hR : (RGBFloat.get { m_yuvs := YUV_t.new .uint8_t wideImage,
                            m_param := CvtConstantParamerter.BT601 } 2).R = -2402 / 1000 := by
    simp only [RGBFloat.get, hget]
    norm_num [RGBFloat.formula, CvtConstantParamerter.BT601]
  refine ⟨by decide, by decide, by decide, hL, hR, ?_⟩
  intro h
  have h2 := congrArg RgbF.R h
  rw [hL, hR] at h2
  norm_num at h2

/-! ## C10: the packed writer -/

/-- In the defined range the cast to `uint8_t` is the floor. -/
theorem toUInt8_of_range (x : ℚ) (h0 : 0 ≤ x) (h1 : x < 256) : (toUInt8 x : ℤ) = ⌊x⌋ := by
  have hf0 : 0 ≤ ⌊x⌋ := Int.floor_nonneg.mpr h0
  have hf1 : ⌊x⌋ < 256 := Int.floor_lt.mpr (by exact_mod_cast h1)
  unfold toUInt8
  rw [if_pos h0, Int.emod_eq_of_lt hf0 hf1, Int.toNat_of_nonneg hf0]

theorem body_it {T : DataByteType} (s : ToRGB24State T) :
    (toRGB24.body s).it = s.it.preInc := rfl

theorem body_i {T : DataByteType} (s : ToRGB24State T) :
    (toRGB24.body s).i = s.i + 3 := rfl

theorem body_ptr {T : DataByteType} (s : ToRGB24State T) (off : Nat) :
    (toRGB24.body s).ptr off =
      if off = s.i + 2 then toUInt8 (s.it.deref.B * 255)
      else if off = s.i + 1 then toUInt8 (s.it.deref.G * 255)
      else if off = s.i then toUInt8 (s.it.deref.R * 255)
      else s.ptr off := by
  simp only [toRGB24.body, Function.update_apply, Nat.add_zero]

/-- The loop variables after `j` iterations: offset `3 j` and the converter's
position advanced `j` times. -/
theorem iterate_body_i_it {T : DataByteType} (c : RGBFloat T) (ptr : Nat → Nat) (j : Nat) :
    (Nat.iterate toRGB24.body j { ptr := ptr, i := 0, it := c.begin }).i = 3 * j
    ∧ (Nat.iterate toRGB24.body j { ptr := ptr, i := 0, it := c.begin }).it
        = Nat.iterate RGBFloat.ConstIter.preInc j c.begin := by
  induction j with
  | zero => exact ⟨rfl, rfl⟩
  | succ j ih =>
    rw [Function.iterate_succ_apply', Function.iterate_succ_apply', body_i, body_it, ih.1, ih.2]
    exact ⟨by omega, rfl⟩

/-- The output memory after `j ≤ size()` iterations: pixels `0..j-1` are
written, every offset from `3 j` on is untouched. -/
theorem iterate_body_ptr {T : DataByteType} (c : RGBFloat T) (ptr : Nat → Nat) (j : Nat)
    (hj : j ≤ c.m_yuvs.size) :
    (∀ off, 3 * j ≤ off →
        (Nat.iterate toRGB24.body j { ptr := ptr, i := 0, it := c.begin }).ptr off = ptr off)
    ∧ (∀ i, i < j →
        (Nat.iterate toRGB24.body j { ptr := ptr, i := 0, it := c.begin }).ptr (3 * i)
          = toUInt8 ((c.get i).R * 255)
        ∧ (Nat.iterate toRGB24.body j { ptr := ptr, i := 0, it := c.begin }).ptr (3 * i + 1)
          = toUInt8 ((c.get i).G * 255)
        ∧ (Nat.iterate toRGB24.body j { ptr := ptr, i := 0, it := c.begin }).ptr (3 * i + 2)
          = toUInt8 ((c.get i).B * 255)) := by
  induction j with
  | zero =>
    exact ⟨fun _ _ => rfl, fun i hi => absurd hi (Nat.not_lt_zero i)⟩
  | succ j ih =>
    obtain ⟨ihU, ihW⟩ := ih (by omega)
    obtain ⟨hi3, hit⟩ := iterate_body_i_it c ptr j
    have hder : (Nat.iterate toRGB24.body j { ptr := ptr, i := 0, it := c.begin }).it.deref
        = c.get j := by
      rw [hit]
      exact deref_iterate_rgb c j (by omega)
    constructor
    · intro off hoff
      rw [Function.iterate_succ_apply', body_ptr, hi3, if_neg (by omega), if_neg (by omega),
        if_neg (by omega)]
      exact ihU off (by omega)
    · intro i hi
      rw [Function.iterate_succ_apply']
      simp only [body_ptr, hi3, hder]
      by_cases hij : i = j
      · subst hij
        refine ⟨?_, ?_, ?_⟩
        · rw [if_neg (by omega), if_neg (by omega), if_pos rfl]
        · rw [if_neg (by omega), if_pos rfl]
        · rw [if_pos rfl]
      · have hlt : i < j := by omega
        obtain ⟨h0, h1, h2⟩ := ihW i hlt
        refine ⟨?_, ?_, ?_⟩
        · rw [if_neg (by omega), if_neg (by omega), if_neg (by omega)]
          exact h0
        · rw [if_neg (by omega), if_neg (by omega), if_neg (by omega)]
          exact h1
        · rw [if_neg (by omega), if_neg (by omega), if_neg (by omega)]
          exact h2

theorem preInc_rgb_index {T : DataByteType} (it : RGBFloat.ConstIter T) :
    it.preInc.m_index = it.m_index + 1 := rfl

/-- The loop started `m` positions before `e` runs exactly `m` iterations: it
ends within `fuel` iterations iff `m ≤ fuel`. -/
theorem loop_eq {T : DataByteType} (e : RGBFloat.ConstIter T) (fuel m : Nat)
    (s : ToRGB24State T) (hm : s.it.m_index + m = e.m_index) :
    toRGB24.loop e fuel s = if m ≤ fuel then some (Nat.iterate toRGB24.body m s) else none := by
  induction fuel generalizing s m with
  | zero =>
    cases m with
    | zero =>
      have hne : s.it.ne e = false := by
        simp only [RGBFloat.ConstIter.ne, decide_eq_false_iff_not, not_not]
        omega
      simp only [toRGB24.loop, hne]
      rfl
    | succ m =>
      have hne : s.it.ne e = true := by
        simp only [RGBFloat.ConstIter.ne, decide_eq_true_eq]
        omega
      simp only [toRGB24.loop, hne]
      rfl
  | succ fuel ih =>
    cases m with
    | zero =>
      have hne : s.it.ne e = false := by
        simp only [RGBFloat.ConstIter.ne, decide_eq_false_iff_not, not_not]
        omega
      simp only [toRGB24.loop, hne]
      rfl
    | succ m =>
      have hne : s.it.ne e = true := by
        simp only [RGBFloat.ConstIter.ne, decide_eq_true_eq]
        omega
      have hstep : (toRGB24.body s).it.m_index + m = e.m_index := by
        rw [body_it, preInc_rgb_index]
        omega
      simp only [toRGB24.loop, hne, if_true]
      rw [ih m (toRGB24.body s) hstep, Function.iterate_succ_apply]
      by_cases hle : m ≤ fuel
      · rw [if_pos hle, if_pos (by omega)]
      · rw [if_neg hle, if_neg (by omega)]

/-- The writer over any converter: the loop runs exactly `size()` iterations. -/
theorem toRGB24_eq {T : DataByteType} (c : RGBFloat T) (ptr : Nat → Nat) (fuel : Nat) :
    toRGB24 fuel ptr c =
      if c.m_yuvs.size ≤ fuel then
        some (Nat.iterate toRGB24.body c.m_yuvs.size { ptr := ptr, i := 0, it := c.begin }).ptr
      else none := by
  unfold toRGB24
  rw [loop_eq c.end_ fuel c.m_yuvs.size _ (by simp [RGBFloat.end_, RGBFloat.begin,
    RGBFloat.ConstIter.new])]
  by_cases h : c.m_yuvs.size ≤ fuel
  · rw [if_pos h, if_pos h]
    rfl
  · rw [if_neg h, if_neg h]
    rfl

/-- C10 (amended): in exact arithmetic, for every converter over a descriptor
with `width > 0` and `n = width*height < 2^32` pixels, `toRGB24` ends after
exactly `n` iterations (it has ended within `fuel` iterations iff `n ≤ fuel`); it
leaves every byte at an offset `≥ 3n` unchanged, and for each `i < n` bytes `3i`,
`3i+1`, `3i+2` are the casts to `uint8_t` of `255` times the R, G, B channels of
`RGBFloat::get(i)`; the cast of `c*255` is `floor(c*255)` when
`0 ≤ c*255 < 256`.  The channels are the exact rational values of `get(i)`: the
binary32 rounding of the program is not represented, and a channel whose exact
product with `255` lies just below an integer can round up to it in binary32.
The memory behind `ptr` is unbounded in the model, so no length is assumed. -/
theorem toRGB24_spec (T : DataByteType) (image : YUVImage) (p : CvtConstantParamerter)
    (ptr : Nat → Nat) (_hw : 0 < image.width)
    (hfit : image.width * image.height < 4294967296) :
    ∃ out : Nat → Nat,
      (∀ fuel, image.width * image.height ≤ fuel →
          toRGB24 fuel ptr { m_yuvs := YUV_t.new T image, m_param := p } = some out)
      ∧ (∀ fuel, fuel < image.width * image.height →
          toRGB24 fuel ptr { m_yuvs := YUV_t.new T image, m_param := p } = none)
      ∧ (∀ off, 3 * (image.width * image.height) ≤ off → out off = ptr off)
      ∧ (∀ i, i < image.width * image.height →
          out (3 * i)
            = toUInt8 ((RGBFloat.get { m_yuvs := YUV_t.new T image, m_param := p } i).R * 255)
          ∧ out (3 * i + 1)
            = toUInt8 ((RGBFloat.get { m_yuvs := YUV_t.new T image, m_param := p } i).G * 255)
          ∧ out (3 * i + 2)
            = toUInt8 ((RGBFloat.get { m_yuvs := YUV_t.new T image, m_param := p } i).B * 255))
      ∧ (∀ c : ℚ, 0 ≤ c * 255 → c * 255 < 256 → (toUInt8 (c * 255) : ℤ) = ⌊c * 255⌋) := by
  have hsz : (YUV_t.new T image).size = image.width * image.height := by
    rw [size_new, u32_of_lt hfit]
  have hsz2 : (RGBFloat.mk (YUV_t.new T image) p).m_yuvs.size = image.width * image.height := hsz
  obtain ⟨hU, hW⟩ := iterate_body_ptr (RGBFloat.mk (YUV_t.new T image) p) ptr
    (image.width * image.height) (by rw [hsz2])
  refine ⟨(Nat.iterate toRGB24.body (image.width * image.height)
      { ptr := ptr, i := 0, it := (RGBFloat.mk (YUV_t.new T image) p).begin }).ptr,
    ?_, ?_, hU, hW, fun c h0 h1 => toUInt8_of_range _ h0 h1⟩
  · intro fuel hf
    rw [toRGB24_eq, hsz2, if_pos hf]
  · intro fuel hf
    rw [toRGB24_eq, hsz2, if_neg (by omega)]

theorem toRGB24_spec_witness :
    (toRGB24 16 (fun _ => 0)
        { m_yuvs := YUV_t.new .uint8_t rampImage420,
          m_param := CvtConstantParamerter.BT601 }).isSome = true
    ∧ toRGB24 15 (fun _ => 0)
        { m_yuvs := YUV_t.new .uint8_t rampImage420,
          m_param := CvtConstantParamerter.BT601 } = none :=
  match toRGB24_spec .uint8_t rampImage420 CvtConstantParamerter.BT601 (fun _ => 0)
      (by decide) (by decide) with
  | ⟨_, hsome, hnone, _⟩ =>
    ⟨by rw [hsome 16 (by decide)]; rfl, hnone 15 (by decide)⟩

/-- C10 as stated fails when `width*height` does not fit in 32 bits: on the
65536 x 65536 image (`n = 2^32` pixels) `size()` is `0`, so the loop of `toRGB24`
ends without a single iteration and the buffer is left as it was. -/
theorem toRGB24_65536 :
    0 < squareImage65536.width
    ∧ squareImage65536.width * squareImage65536.height = 4294967296
    ∧ toRGB24 0 (fun _ => 7)
        { m_yuvs := YUV_t.new .uint8_t squareImage65536,
          m_param := CvtConstantParamerter.BT601 } = some (fun _ => 7) := by
  refine ⟨by decide, by decide, ?_⟩
  have hsz : (RGBFloat.mk (YUV_t.new .uint8_t squareImage65536)
      CvtConstantParamerter.BT601).m_yuvs.size = 0 := by decide
  rw [toRGB24_eq, hsz, if_pos (le_refl 0)]
  rfl

/-! ## C11: the builder -/

theorem afterCalls_append (calls : List SetterCall) (c : SetterCall) :
    YUVImageBuilder.afterCalls (calls ++ [c])
      = SetterCall.apply (YUVImageBuilder.afterCalls calls) c := by
  simp [YUVImageBuilder.afterCalls, List.foldl_append]

/-- A setter stores its arguments in its own member and leaves the others. -/
theorem stored_apply (b : YUVImageBuilder) (c : SetterCall) (f : BuilderField) :
    (SetterCall.apply b c).stored f = if c.field = f then some c else b.stored f := by
  cases c <;> cases f <;> rfl

theorem lastCall_append (calls : List SetterCall) (c : SetterCall) (f : BuilderField) :
    lastCall (calls ++ [c]) f = if c.field = f then some c else lastCall calls f := by
  simp only [lastCall, List.reverse_append, List.reverse_cons, List.reverse_nil, List.nil_append,
    List.singleton_append, List.find?_cons]
  by_cases h : c.field = f
  · simp [h]
  · simp [h]

/-- After any sequence of setter calls each member holds what the most recent
call of its setter stored, and is empty when there was none. -/
theorem stored_afterCalls (calls : List SetterCall) (f : BuilderField) :
    (YUVImageBuilder.afterCalls calls).stored f = lastCall calls f := by
  induction calls using List.reverseRecOn with
  | nil => cases f <;> rfl
  | append_singleton calls c ih =>
    rw [afterCalls_append, stored_apply, lastCall_append, ih]

theorem lastCall_eq_none_iff (calls : List SetterCall) (f : BuilderField) :
    lastCall calls f = none ↔ neverSet calls f := by
  simp [lastCall, neverSet, List.find?_eq_none]

theorem rank_injective (f g : BuilderField) (h : f.rank = g.rank) : f = g := by
  cases f <;> cases g <;> first | rfl | (simp [BuilderField.rank] at h)

/-- The two outcomes of `build()`: the error of the first empty member, or the
descriptor of the eight stored values. -/
theorem build_cases (b : YUVImageBuilder) :
    (∃ f, b.stored f = none ∧ (∀ g, g.rank < f.rank → b.stored g ≠ none)
        ∧ b.build = Except.error f.name)
    ∨ (∃ img, b.build = Except.ok img ∧ b.m_y = some img.Y ∧ b.m_u = some img.U
        ∧ b.m_v = some img.V ∧ b.m_width = some img.width ∧ b.m_height = some img.height
        ∧ b.m_chromaShiftX = some img.chromaShiftX ∧ b.m_chromaShiftY = some img.chromaShiftY
        ∧ b.m_bitDepth = some img.depth) := by
  obtain ⟨y, u, v, w, h, sx, sy, d⟩ := b
  rcases y with _ | y
  · exact Or.inl ⟨.planeY, rfl, fun g hg => by cases g <;> simp [BuilderField.rank] at hg, rfl⟩
  rcases u with _ | u
  · exact Or.inl ⟨.planeU, rfl, fun g hg => by
      cases g <;> first | (simp [BuilderField.rank] at hg; done) | simp [YUVImageBuilder.stored],
      rfl⟩
  rcases v with _ | v
  · exact Or.inl ⟨.planeV, rfl, fun g hg => by
      cases g <;> first | (simp [BuilderField.rank] at hg; done) | simp [YUVImageBuilder.stored],
      rfl⟩
  rcases w with _ | w
  · exact Or.inl ⟨.width, rfl, fun g hg => by
      cases g <;> first | (simp [BuilderField.rank] at hg; done) | simp [YUVImageBuilder.stored],
      rfl⟩
  rcases h with _ | h
  · exact Or.inl ⟨.height, rfl, fun g hg => by
      cases g <;> first | (simp [BuilderField.rank] at hg; done) | simp [YUVImageBuilder.stored],
      rfl⟩
  rcases sx with _ | sx
  · exact Or.inl ⟨.chromaShiftX, rfl, fun g hg => by
      cases g <;> first | (simp [BuilderField.rank] at hg; done) | simp [YUVImageBuilder.stored],
      rfl⟩
  rcases sy with _ | sy
  · exact Or.inl ⟨.chromaShiftY, rfl, fun g hg => by
      cases g <;> first | (simp [BuilderField.rank] at hg; done) | simp [YUVImageBuilder.stored],
      rfl⟩
  rcases d with _ | d
  · exact Or.inl ⟨.bitDepth, rfl, fun g hg => by
      cases g <;> first | (simp [BuilderField.rank] at hg; done) | simp [YUVImageBuilder.stored],
      rfl⟩
  exact Or.inr ⟨_, rfl, rfl, rfl, rfl, rfl, rfl, rfl, rfl, rfl⟩

theorem stored_ne_none_of_all (b : YUVImageBuilder) (img : YUVImage)
    (hy : b.m_y = some img.Y) (hu : b.m_u = some img.U) (hv : b.m_v = some img.V)
    (hw : b.m_width = some img.width) (hh : b.m_height = some img.height)
    (hsx : b.m_chromaShiftX = some img.chromaShiftX)
    (hsy : b.m_chromaShiftY = some img.chromaShiftY)
    (hd : b.m_bitDepth = some img.depth) (f : BuilderField) : b.stored f ≠ none := by
  cases f <;> simp [YUVImageBuilder.stored, hy, hu, hv, hw, hh, hsx, hsy, hd]

/-- C11: for every sequence of setter calls, `build()` fails iff some field was
never set (a call counts whatever its value, `ChromaShiftX(0)` included); the
failure names the first never-set field in the order Y plane, U plane, V plane,
width, height, chromaShiftX, chromaShiftY, bit depth; when every field was set
the result is the descriptor of the most recently set values. -/
theorem build_afterCalls (calls : List SetterCall) :
    ((∃ msg, (YUVImageBuilder.afterCalls calls).build = Except.error msg)
        ↔ ∃ f, neverSet calls f)
    ∧ (∀ f, neverSet calls f → (∀ g, g.rank < f.rank → ¬ neverSet calls g) →
        (YUVImageBuilder.afterCalls calls).build = Except.error f.name)
    ∧ ((∀ f, ¬ neverSet calls f) →
        ∃ img, (YUVImageBuilder.afterCalls calls).build = Except.ok img
          ∧ lastCall calls .planeY = some (SetterCall.PlaneY img.Y.data img.Y.stride)
          ∧ lastCall calls .planeU = some (SetterCall.PlaneU img.U.data img.U.stride)
          ∧ lastCall calls .planeV = some (SetterCall.PlaneV img.V.data img.V.stride)
          ∧ lastCall calls .width = some (SetterCall.Width img.width)
          ∧ lastCall calls .height = some (SetterCall.Height img.height)
          ∧ lastCall calls .chromaShiftX = some (SetterCall.ChromaShiftX img.chromaShiftX)
          ∧ lastCall calls .chromaShiftY = some (SetterCall.ChromaShiftY img.chromaShiftY)
          ∧ lastCall calls .bitDepth = some (SetterCall.BitDepth img.depth)) := by
  have hst : ∀ f, (YUVImageBuilder.afterCalls calls).stored f = none ↔ neverSet calls f :=
    fun f => by rw [stored_afterCalls, lastCall_eq_none_iff]
  refine ⟨⟨?_, ?_⟩, ?_, ?_⟩
  · rintro ⟨msg, hmsg⟩
    rcases build_cases (YUVImageBuilder.afterCalls calls) with ⟨f, hf, _, _⟩ | ⟨img, himg, _⟩
    · exact ⟨f, (hst f).mp hf⟩
    · rw [himg] at hmsg
      cases hmsg
  · rintro ⟨f, hf⟩
    rcases build_cases (YUVImageBuilder.afterCalls calls) with
      ⟨g, _, _, hg⟩ | ⟨img, _, hy, hu, hv, hw, hh, hsx, hsy, hd⟩
    · exact ⟨_, hg⟩
    · exact absurd ((hst f).mpr hf) (stored_ne_none_of_all _ img hy hu hv hw hh hsx hsy hd f)
  · intro f hf hearlier
    rcases build_cases (YUVImageBuilder.afterCalls calls) with
      ⟨g, hgn, hgearlier, hg⟩ | ⟨img, _, hy, hu, hv, hw, hh, hsx, hsy, hd⟩
    · have hfg : g = f := by
        apply rank_injective
        rcases Nat.lt_trichotomy g.rank f.rank with hlt | heq | hgt
        · exact absurd ((hst g).mp hgn) (hearlier g hlt)
        · exact heq
        · exact absurd ((hst f).mpr hf) (hgearlier f hgt)
      rw [← hfg]
      exact hg
    · exact absurd ((hst f).mpr hf) (stored_ne_none_of_all _ img hy hu hv hw hh hsx hsy hd f)
  · intro hall
    rcases build_cases (YUVImageBuilder.afterCalls calls) with
      ⟨g, hgn, _, _⟩ | ⟨img, himg, hy, hu, hv, hw, hh, hsx, hsy, hd⟩
    · exact absurd ((hst g).mp hgn) (hall g)
    · refine ⟨img, himg, ?_, ?_, ?_, ?_, ?_, ?_, ?_, ?_⟩
      · rw [← stored_afterCalls]; simp [YUVImageBuilder.stored, hy]
      · rw [← stored_afterCalls]; simp [YUVImageBuilder.stored, hu]
      · rw [← stored_afterCalls]; simp [YUVImageBuilder.stored, hv]
      · rw [← stored_afterCalls]; simp [YUVImageBuilder.stored, hw]
      · rw [← stored_afterCalls]; simp [YUVImageBuilder.stored, hh]
      · rw [← stored_afterCalls]; simp [YUVImageBuilder.stored, hsx]
      · rw [← stored_afterCalls]; simp [YUVImageBuilder.stored, hsy]
      · rw [← stored_afterCalls]; simp [YUVImageBuilder.stored, hd]

theorem build_afterCalls_witness :
    (YUVImageBuilder.afterCalls callsPlanesOnly).build = Except.error "Width"
    ∧ (∃ img, (YUVImageBuilder.afterCalls callsAllZero).build = Except.ok img
        ∧ lastCall callsAllZero .chromaShiftX = some (SetterCall.ChromaShiftX img.chromaShiftX)) :=
  ⟨(build_afterCalls callsPlanesOnly).2.1 .width (by unfold neverSet; decide)
      (fun g hg => by
        have hset : ∀ f : BuilderField, f.rank < 3 → ¬ neverSet callsPlanesOnly f := by
          intro f hf
          cases f <;> first | (simp [BuilderField.rank] at hf; done)
                            | simp [neverSet, callsPlanesOnly, SetterCall.field]
        exact hset g hg),
   match (build_afterCalls callsAllZero).2.2
      (fun f => by cases f <;> simp [neverSet, callsAllZero, SetterCall.field]) with
   | ⟨img, hok, _, _, _, _, _, hsx, _, _⟩ => ⟨img, hok, hsx⟩⟩

/-! ## C12: the converter out of range -/

/-- The formula applied to the sampler's sentinel. -/
theorem formula_sentinel (p : CvtConstantParamerter) :
    RGBFloat.formula p { Y := -1, U := -1, V := -1 }
      = { R := -3 + 2 * p.kr
          G := -1 + 2 * (p.kr * (1 - p.kr) + p.kb * (1 - p.kb)) / p.kg
          B := -3 + 2 * p.kb } := by
  simp only [RGBFloat.formula, RgbF.mk.injEq]
  refine ⟨by ring, ?_, by ring⟩
  rw [show (2 * (p.kr * (1 - p.kr) * -1 + p.kb * (1 - p.kb) * -1))
      = -(2 * (p.kr * (1 - p.kr) + p.kb * (1 - p.kb))) by ring, neg_div]
  ring

/-- C12 (amended): for every converter under one of the three presets and every
`index ≥ width*height`, `RGBFloat::get(index)` is the matrix formula applied to
the sampler's sentinel, `(-3 + 2 kr, -1 + 2 (kr(1-kr) + kb(1-kb)) / kg, -3 + 2 kb)`;
this is not the triple `(-1,-1,-1)`. -/
theorem rgb_get_of_ge (T : DataByteType) (image : YUVImage) (p : CvtConstantParamerter)
    (index : Nat) (h : image.width * image.height ≤ index)
    (hp : p = CvtConstantParamerter.BT601 ∨ p = CvtConstantParamerter.BT709
      ∨ p = CvtConstantParamerter.BT2020) :
    RGBFloat.get { m_yuvs := YUV_t.new T image, m_param := p } index
      = RGBFloat.formula p { Y := -1, U := -1, V := -1 }
    ∧ RGBFloat.get { m_yuvs := YUV_t.new T image, m_param := p } index
      = { R := -3 + 2 * p.kr
          G := -1 + 2 * (p.kr * (1 - p.kr) + p.kb * (1 - p.kb)) / p.kg
          B := -3 + 2 * p.kb }
    ∧ RGBFloat.get { m_yuvs := YUV_t.new T image, m_param := p } index
      ≠ { R := -1, G := -1, B := -1 } := by
  have hget : RGBFloat.get { m_yuvs := YUV_t.new T image, m_param := p } index
      = RGBFloat.formula p { Y := -1, U := -1, V := -1 } := by
    simp only [RGBFloat.get]
    rw [get_of_size_le (YUV_t.new T image) index (le_trans (u32_le _) h)]
  refine ⟨hget, by rw [hget, formula_sentinel], ?_⟩
  rw [hget, formula_sentinel]
  intro hc
  have hR := congrArg RgbF.R hc
  simp only at hR
  rcases hp with rfl | rfl | rfl
  · norm_num [CvtConstantParamerter.BT601] at hR
  · norm_num [CvtConstantParamerter.BT709] at hR
  · norm_num [CvtConstantParamerter.BT2020] at hR

theorem rgb_get_of_ge_witness :
    RGBFloat.get { m_yuvs := YUV_t.new .uint16_t rampImage420,
                   m_param := CvtConstantParamerter.BT2020 } 20
      = RGBFloat.formula CvtConstantParamerter.BT2020 { Y := -1, U := -1, V := -1 } :=
  (rgb_get_of_ge .uint16_t rampImage420 CvtConstantParamerter.BT2020 20 (by decide)
    (Or.inr (Or.inr rfl))).1

/-- C12 as stated fails: on the 4 x 4 image, `get(16)` of the BT.601 converter
has `R = -2402/1000`, `B = -2772/1000`; it is not `(-1,-1,-1)`. -/
theorem rgb_get_16_ne_sentinel :
    rampImage420.width * rampImage420.height ≤ 16
    ∧ (RGBFloat.get { m_yuvs := YUV_t.new .uint8_t rampImage420,
                      m_param := CvtConstantParamerter.BT601 } 16).R = -2402 / 1000
    ∧ (RGBFloat.get { m_yuvs := YUV_t.new .uint8_t rampImage420,
                      m_param := CvtConstantParamerter.BT601 } 16).B = -2772 / 1000
    ∧ RGBFloat.get { m_yuvs := YUV_t.new .uint8_t rampImage420,
                     m_param := CvtConstantParamerter.BT601 } 16
        ≠ { R := -1, G := -1, B := -1 } := by
  have hget : (YUV_t.new .uint8_t rampImage420).get 16 = { Y := -1, U := -1, V := -1 } :=
    get_of_size_le _ _ (by decide)
  have hR : (RGBFloat.get { m_yuvs := YUV_t.new .uint8_t rampImage420,
                            m_param := CvtConstantParamerter.BT601 } 16).R = -2402 / 1000 := by
    simp only [RGBFloat.get, hget]
    norm_num [RGBFloat.formula, CvtConstantParamerter.BT601]
  have hB : (RGBFloat.get { m_yuvs := YUV_t.new .uint8_t rampImage420,
                            m_param := CvtConstantParamerter.BT601 } 16).B = -2772 / 1000 := by
    simp only [RGBFloat.get, hget]
    norm_num [RGBFloat.formula, CvtConstantParamerter.BT601]
  refine ⟨by decide, hR, hB, ?_⟩
  intro hc
  have h2 := congrArg RgbF.R hc
  rw [hR] at h2
  norm_num at h2

/-! ## C13: the length of the sequences -/

/-- C13 (amended): for every descriptor, `YUV_t::size()`, `RGBFloat::size()` and
the index of `end()` of both sequences are `(width*height) mod 2^32`; this is the
product `width*height` exactly when the product is below `2^32`. -/
theorem size_eq_mod (T : DataByteType) (image : YUVImage) (p : CvtConstantParamerter) :
    (YUV_t.new T image).size = (image.width * image.height) % 4294967296
    ∧ RGBFloat.size { m_yuvs := YUV_t.new T image, m_param := p }
        = (image.width * image.height) % 4294967296
    ∧ (YUV_t.new T image).end_.m_index = (image.width * image.height) % 4294967296
    ∧ (RGBFloat.end_ { m_yuvs := YUV_t.new T image, m_param := p }).m_index
        = (image.width * image.height) % 4294967296
    ∧ ((YUV_t.new T image).size = image.width * image.height
        ↔ image.width * image.height < 4294967296) := by
  refine ⟨rfl, rfl, rfl, rfl, ?_⟩
  rw [size_new, u32]
  constructor
  · intro h
    rw [← h]
    exact Nat.mod_lt _ (by decide)
  · exact Nat.mod_eq_of_lt

/-- C13 as stated fails: on the 65536 x 65536 image the product is `2^32` and
`size()`, like the index of `end()`, is `0`. -/
theorem size_65536 :
    squareImage65536.width * squareImage65536.height = 4294967296
    ∧ (YUV_t.new .uint8_t squareImage65536).size = 0
    ∧ (YUV_t.new .uint8_t squareImage65536).end_.m_index = 0
    ∧ RGBFloat.size { m_yuvs := YUV_t.new .uint8_t squareImage65536,
                      m_param := CvtConstantParamerter.BT601 } = 0
    ∧ (YUV_t.new .uint8_t squareImage65536).size
        ≠ squareImage65536.width * squareImage65536.height := by
  refine ⟨by decide, by decide, by decide, by decide, by decide⟩

/-! ## C14: the chroma coordinates are monotone -/

theorem shiftRight_mono {a b : Nat} (s : Nat) (h : a ≤ b) : a >>> s ≤ b >>> s := by
  rw [Nat.shiftRight_eq_div_pow, Nat.shiftRight_eq_div_pow]
  exact Nat.div_le_div_right h

theorem shiftRight_le_self (a s : Nat) : a >>> s ≤ a := by
  rw [Nat.shiftRight_eq_div_pow]
  exact Nat.div_le_self _ _

/-- The operands of `get` are read at the coordinates `uvY`, `uvX`. -/
theorem rawU_eq {T : DataByteType} (s : YUV_t T) (index : Nat) :
    s.rawU index = GetRow T s.m_image.U.data (s.uvY index) s.m_image.U.stride (s.uvX index)
    ∧ s.rawV index = GetRow T s.m_image.V.data (s.uvY index) s.m_image.V.stride (s.uvX index) :=
  ⟨rfl, rfl⟩

/-- Below `size()` the cast to `uint32_t` in `uvY` and `uvX` changes nothing. -/
theorem uv_of_lt_size {T : DataByteType} (s : YUV_t T) (index : Nat) (h : index < s.size) :
    s.uvY index = min ((index / s.m_image.width) >>> s.m_image.chromaShiftY) s.MAX_UVY
    ∧ s.uvX index = min ((index % s.m_image.width) >>> s.m_image.chromaShiftX) s.MAX_UVX := by
  have hlt : index < 4294967296 := lt_trans h (u32_lt _)
  have h1 : (index / s.m_image.width) >>> s.m_image.chromaShiftY < 4294967296 :=
    lt_of_le_of_lt (le_trans (shiftRight_le_self _ _) (Nat.div_le_self _ _)) hlt
  have h2 : (index % s.m_image.width) >>> s.m_image.chromaShiftX < 4294967296 :=
    lt_of_le_of_lt (le_trans (shiftRight_le_self _ _) (Nat.mod_le _ _)) hlt
  simp only [YUV_t.uvY, YUV_t.uvX, u32_of_lt h1, u32_of_lt h2, and_self]

/-- C14: for every sampler (any width, height and shifts) the chroma coordinates
are non-decreasing in the luma coordinates: for rows `r1 ≤ r2` and columns
`c1 ≤ c2`, `min(r1 >> chromaShiftY, MAX_UVY) ≤ min(r2 >> chromaShiftY, MAX_UVY)`
and `min(c1 >> chromaShiftX, MAX_UVX) ≤ min(c2 >> chromaShiftX, MAX_UVX)`; for
indices below `size()` these are the coordinates `uvY`, `uvX` that `get` uses, so
those are monotone in the luma row and column of the index. -/
theorem chroma_coord_mono (T : DataByteType) (image : YUVImage) (r1 r2 c1 c2 : Nat)
    (hr : r1 ≤ r2) (hc : c1 ≤ c2) :
    min (r1 >>> image.chromaShiftY) (YUV_t.new T image).MAX_UVY
        ≤ min (r2 >>> image.chromaShiftY) (YUV_t.new T image).MAX_UVY
    ∧ min (c1 >>> image.chromaShiftX) (YUV_t.new T image).MAX_UVX
        ≤ min (c2 >>> image.chromaShiftX) (YUV_t.new T image).MAX_UVX
    ∧ (∀ i, i < (YUV_t.new T image).size →
        (YUV_t.new T image).uvY i
            = min ((i / image.width) >>> image.chromaShiftY) (YUV_t.new T image).MAX_UVY
        ∧ (YUV_t.new T image).uvX i
            = min ((i % image.width) >>> image.chromaShiftX) (YUV_t.new T image).MAX_UVX)
    ∧ (∀ i1 i2, i1 < (YUV_t.new T image).size → i2 < (YUV_t.new T image).size →
        i1 / image.width ≤ i2 / image.width →
        (YUV_t.new T image).uvY i1 ≤ (YUV_t.new T image).uvY i2)
    ∧ (∀ i1 i2, i1 < (YUV_t.new T image).size → i2 < (YUV_t.new T image).size →
        i1 % image.width ≤ i2 % image.width →
        (YUV_t.new T image).uvX i1 ≤ (YUV_t.new T image).uvX i2) := by
  refine ⟨min_le_min (shiftRight_mono _ hr) le_rfl, min_le_min (shiftRight_mono _ hc) le_rfl,
    fun i hi => uv_of_lt_size _ i hi, ?_, ?_⟩
  · intro i1 i2 h1 h2 h
    rw [(uv_of_lt_size _ i1 h1).1, (uv_of_lt_size _ i2 h2).1]
    exact min_le_min (shiftRight_mono _ h) le_rfl
  · intro i1 i2 h1 h2 h
    rw [(uv_of_lt_size _ i1 h1).2, (uv_of_lt_size _ i2 h2).2]
    exact min_le_min (shiftRight_mono _ h) le_rfl

theorem chroma_coord_mono_witness :
    min (1 >>> rampImage420.chromaShiftY) (YUV_t.new .uint8_t rampImage420).MAX_UVY
        ≤ min (3 >>> rampImage420.chromaShiftY) (YUV_t.new .uint8_t rampImage420).MAX_UVY
    ∧ min (0 >>> rampImage420.chromaShiftX) (YUV_t.new .uint8_t rampImage420).MAX_UVX
        ≤ min (2 >>> rampImage420.chromaShiftX) (YUV_t.new .uint8_t rampImage420).MAX_UVX :=
  have h := chroma_coord_mono .uint8_t rampImage420 1 3 0 2 (by decide) (by decide)
  ⟨h.1, h.2.1⟩

/-! ## C15: the cached chroma row -/

/-- C15 (amended): for every descriptor with `width > 0` and every position
reached from `begin() + j` (from `begin()` for `j = 0`) by `k` pre-increments,
the index is `j + k` and the cached chroma row is
`m_uvY = min(((m_index / width) >> chromaShiftY) mod 2^32, MAX_UVY)`, the shifted
row being cast to `uint32_t`; this is `min((m_index / width) >> chromaShiftY,
MAX_UVY)` whenever the shifted row is below `2^32`, in particular for every
`m_index < 2^32`; an advance that stays on the same luma row leaves `m_uvY`
unchanged. -/
theorem cache_invariant (T : DataByteType) (image : YUVImage) (j k : Nat)
    (_hw : 0 < image.width) :
    (Nat.iterate YUV_t.ConstIter.preInc k ((YUV_t.new T image).begin.add j)).m_index = j + k
    ∧ (Nat.iterate YUV_t.ConstIter.preInc k ((YUV_t.new T image).begin.add j)).m_uvY
        = min (((((j + k) / image.width) >>> image.chromaShiftY)) % 4294967296)
            (YUV_t.new T image).MAX_UVY
    ∧ (((j + k) / image.width) >>> image.chromaShiftY < 4294967296 →
        (Nat.iterate YUV_t.ConstIter.preInc k ((YUV_t.new T image).begin.add j)).m_uvY
          = min (((j + k) / image.width) >>> image.chromaShiftY) (YUV_t.new T image).MAX_UVY)
    ∧ (j + k < 4294967296 →
        (Nat.iterate YUV_t.ConstIter.preInc k ((YUV_t.new T image).begin.add j)).m_uvY
          = min (((j + k) / image.width) >>> image.chromaShiftY) (YUV_t.new T image).MAX_UVY)
    ∧ ((j + k) / image.width = (j + k + 1) / image.width →
        (Nat.iterate YUV_t.ConstIter.preInc k ((YUV_t.new T image).begin.add j)).preInc.m_uvY
          = (Nat.iterate YUV_t.ConstIter.preInc k ((YUV_t.new T image).begin.add j)).m_uvY) := by
  have hadd : (YUV_t.new T image).begin.add j = YUV_t.ConstIter.new (YUV_t.new T image) j := by
    simp [YUV_t.ConstIter.add, YUV_t.begin, YUV_t.ConstIter.new]
  rw [hadd, iterate_preInc_new]
  have hshift : ((j + k) / image.width) >>> image.chromaShiftY < 4294967296 →
      min (u32 (((j + k) / image.width) >>> image.chromaShiftY)) (YUV_t.new T image).MAX_UVY
        = min (((j + k) / image.width) >>> image.chromaShiftY) (YUV_t.new T image).MAX_UVY := by
    intro h
    rw [u32_of_lt h]
  refine ⟨rfl, rfl, hshift, ?_, ?_⟩
  · intro h
    exact hshift (lt_of_le_of_lt (le_trans (shiftRight_le_self _ _) (Nat.div_le_self _ _)) h)
  · intro h
    show (if (j + k) / image.width ≠ (j + k + 1) / image.width then _ else _) = _
    rw [if_neg (not_not.mpr h)]

theorem cache_invariant_witness :
    (Nat.iterate YUV_t.ConstIter.preInc 5 ((YUV_t.new .uint8_t rampImage420).begin.add 3)).m_index
      = 3 + 5 :=
  (cache_invariant .uint8_t rampImage420 3 5 (by decide)).1

/-- C15 as stated fails for positions whose shifted row leaves the 32-bit range:
on the 1 x 2 image (`MAX_UVY = 1`) the position `begin() + 2^32` caches
`m_uvY = min(uint32_t(2^32), 1) = 0`, while `min(2^32 >> 0, 1) = 1`. -/
theorem cache_at_two_pow_32 :
    0 < tallImage.width
    ∧ (YUV_t.new .uint8_t tallImage).MAX_UVY = 1
    ∧ ((YUV_t.new .uint8_t tallImage).begin.add 4294967296).m_index = 4294967296
    ∧ ((YUV_t.new .uint8_t tallImage).begin.add 4294967296).m_uvY = 0
    ∧ min ((((YUV_t.new .uint8_t tallImage).begin.add 4294967296).m_index / tallImage.width)
            >>> tallImage.chromaShiftY) (YUV_t.new .uint8_t tallImage).MAX_UVY = 1
    ∧ ((YUV_t.new .uint8_t tallImage).begin.add 4294967296).m_uvY
        ≠ min ((((YUV_t.new .uint8_t tallImage).begin.add 4294967296).m_index / tallImage.width)
            >>> tallImage.chromaShiftY) (YUV_t.new .uint8_t tallImage).MAX_UVY := by
  refine ⟨by decide, by decide, by decide, by decide, by decide, by decide⟩

/-! ## C16: the position after the last advance -/

/-- A decoded sample has `Y ≥ 0`, so it is not the sentinel. -/
theorem get_ne_sentinel_of_lt {T : DataByteType} (s : YUV_t T) (index : Nat)
    (h : index < s.size) : s.get index ≠ { Y := -1, U := -1, V := -1 } := by
  rw [get_of_lt_size s index h]
  intro hc
  have hY := congrArg YuvF.Y hc
  simp only at hY
  have hden : (0 : ℚ) ≤ 2 ^ s.m_image.depth - 1 := by
    have : (1 : ℚ) ≤ 2 ^ s.m_image.depth := one_le_pow₀ (by norm_num)
    linarith
  have hnn : (0 : ℚ) ≤ (s.rawY index : ℚ) / (2 ^ s.m_image.depth - 1) :=
    div_nonneg (Nat.cast_nonneg _) hden
  linarith

/-- C16 (amended): for every sampler over a descriptor with `width > 0` and
`n = width*height` pixels, `1 ≤ n < 2^32`, the position reached from `begin()` by
`n` advances has the linear index of `end()` and compares equal to it, yet it
dereferences to the last decoded value `get(n-1)`, which is not the sentinel,
whereas the constructed `end()` dereferences to the sentinel `(-1,-1,-1)`. -/
theorem advanced_end_stale (T : DataByteType) (image : YUVImage)
    (_hw : 0 < image.width) (hn : 1 ≤ image.width * image.height)
    (hfit : image.width * image.height < 4294967296) :
    (Nat.iterate YUV_t.ConstIter.preInc (image.width * image.height)
        (YUV_t.new T image).begin).m_index = (YUV_t.new T image).end_.m_index
    ∧ (Nat.iterate YUV_t.ConstIter.preInc (image.width * image.height)
        (YUV_t.new T image).begin).eq (YUV_t.new T image).end_ = true
    ∧ (Nat.iterate YUV_t.ConstIter.preInc (image.width * image.height)
        (YUV_t.new T image).begin).deref
          = (YUV_t.new T image).get (image.width * image.height - 1)
    ∧ (YUV_t.new T image).end_.deref = { Y := -1, U := -1, V := -1 }
    ∧ (Nat.iterate YUV_t.ConstIter.preInc (image.width * image.height)
        (YUV_t.new T image).begin).deref ≠ (YUV_t.new T image).end_.deref := by
  have hsz : (YUV_t.new T image).size = image.width * image.height := by
    rw [size_new, u32_of_lt hfit]
  have hidx : (Nat.iterate YUV_t.ConstIter.preInc (image.width * image.height)
        (YUV_t.new T image).begin).m_index = (YUV_t.new T image).end_.m_index := by
    rw [YUV_t.begin, iterate_preInc_new]
    simp only [YUV_t.end_, YUV_t.ConstIter.new, Nat.zero_add]
    exact (u32_of_lt hfit).symm
  have hder : (Nat.iterate YUV_t.ConstIter.preInc (image.width * image.height)
        (YUV_t.new T image).begin).deref
          = (YUV_t.new T image).get (image.width * image.height - 1) := by
    rw [YUV_t.begin, iterate_preInc_new]
    simp only [YUV_t.ConstIter.deref, hsz, Nat.zero_add]
    rw [if_pos (by omega), Nat.min_eq_right (by omega)]
  have hend : (YUV_t.new T image).end_.deref = { Y := -1, U := -1, V := -1 } := by
    simp only [YUV_t.end_, YUV_t.ConstIter.deref, YUV_t.ConstIter.new, ConstIter_get_eq_get]
    exact get_of_size_le _ _ (le_of_eq rfl)
  refine ⟨hidx, ?_, hder, hend, ?_⟩
  · simp only [YUV_t.ConstIter.eq, decide_eq_true_eq]
    exact hidx.symm
  · rw [hder, hend]
    exact get_ne_sentinel_of_lt _ _ (by rw [hsz]; omega)

theorem advanced_end_stale_witness :
    (Nat.iterate YUV_t.ConstIter.preInc (rampImage420.width * rampImage420.height)
        (YUV_t.new .uint8_t rampImage420).begin).deref
          = (YUV_t.new .uint8_t rampImage420).get (rampImage420.width * rampImage420.height - 1)
    ∧ (YUV_t.new .uint8_t rampImage420).end_.deref = { Y := -1, U := -1, V := -1 } :=
  have h := advanced_end_stale .uint8_t rampImage420 (by decide) (by decide) (by decide)
  ⟨h.2.2.1, h.2.2.2.1⟩

/-- C16 as stated fails when `width*height` does not fit in 32 bits: on the
65536 x 65536 image (`n = 2^32`) the position advanced `n` times has index
`2^32`, while `end()` has index `0`; the two do not compare equal. -/
theorem advanced_end_65536 :
    0 < squareImage65536.width
    ∧ 1 ≤ squareImage65536.width * squareImage65536.height
    ∧ (Nat.iterate YUV_t.ConstIter.preInc (squareImage65536.width * squareImage65536.height)
        (YUV_t.new .uint8_t squareImage65536).begin).m_index = 4294967296
    ∧ (YUV_t.new .uint8_t squareImage65536).end_.m_index = 0
    ∧ (Nat.iterate YUV_t.ConstIter.preInc (squareImage65536.width * squareImage65536.height)
        (YUV_t.new .uint8_t squareImage65536).begin).eq
          (YUV_t.new .uint8_t squareImage65536).end_ = false := by
  have hidx : (Nat.iterate YUV_t.ConstIter.preInc
      (squareImage65536.width * squareImage65536.height)
      (YUV_t.new .uint8_t squareImage65536).begin).m_index = 4294967296 := by
    rw [YUV_t.begin, iterate_preInc_new]
    decide
  have hend : (YUV_t.new .uint8_t squareImage65536).end_.m_index = 0 := by decide
  refine ⟨by decide, by decide, hidx, hend, ?_⟩
  simp only [YUV_t.ConstIter.eq, hidx, hend]
  decide

/-! ## C17: what `build()` checks -/

/-- C17 (amended): every descriptor returned successfully by `build()` carries,
field by field, the value stored in the builder by the setters; `build()` checks
that a value is present and nothing else, so `width > 0`, `height > 0` and
`depth ≥ 1` hold exactly when the stored values satisfy them. -/
theorem build_ok_fields (b : YUVImageBuilder) (img : YUVImage)
    (h : b.build = Except.ok img) :
    b.m_y = some img.Y ∧ b.m_u = some img.U ∧ b.m_v = some img.V
    ∧ b.m_width = some img.width ∧ b.m_height = some img.height
    ∧ b.m_chromaShiftX = some img.chromaShiftX ∧ b.m_chromaShiftY = some img.chromaShiftY
    ∧ b.m_bitDepth = some img.depth
    ∧ ((0 < img.width ∧ 0 < img.height ∧ 1 ≤ img.depth)
        ↔ (∃ w hgt d, b.m_width = some w ∧ b.m_height = some hgt ∧ b.m_bitDepth = some d
            ∧ 0 < w ∧ 0 < hgt ∧ 1 ≤ d)) := by
  rcases build_cases b with ⟨f, _, _, hf⟩ | ⟨img2, himg, hy, hu, hv, hw, hh, hsx, hsy, hd⟩
  · rw [hf] at h
    cases h
  · rw [himg] at h
    cases h
    refine ⟨hy, hu, hv, hw, hh, hsx, hsy, hd, ?_⟩
    constructor
    · rintro ⟨h1, h2, h3⟩
      exact ⟨_, _, _, hw, hh, hd, h1, h2, h3⟩
    · rintro ⟨w, hgt, d, hw2, hh2, hd2, h1, h2, h3⟩
      rw [hw] at hw2
      rw [hh] at hh2
      rw [hd] at hd2
      cases hw2
      cases hh2
      cases hd2
      exact ⟨h1, h2, h3⟩

theorem build_ok_fields_witness :
    (YUVImageBuilder.afterCalls callsAllZero).m_width = some 0 :=
  (build_ok_fields (YUVImageBuilder.afterCalls callsAllZero)
    { Y := { data := fun _ => 0, stride := 0 }, U := { data := fun _ => 0, stride := 0 },
      V := { data := fun _ => 0, stride := 0 }, width := 0, height := 0,
      chromaShiftX := 0, chromaShiftY := 0, depth := 0 } rfl).2.2.2.1

/-- C17 as stated fails: after `Width(0)`, `Height(0)`, `BitDepth(0)` (and the
other five setters) `build()` succeeds and returns a descriptor with
`width = 0`, `height = 0` and `depth = 0`. -/
theorem build_accepts_zero :
    ∃ img, (((((((((YUVImageBuilder.new.PlaneY (fun _ => 0) 0).PlaneU (fun _ => 0) 0).PlaneV
          (fun _ => 0) 0).Width 0).Height 0).ChromaShiftX 0).ChromaShiftY 0).BitDepth 0).build)
        = Except.ok img
      ∧ img.width = 0 ∧ img.height = 0 ∧ img.depth = 0
      ∧ ¬ (0 < img.width ∧ 0 < img.height ∧ 1 ≤ img.depth) :=
  ⟨_, rfl, rfl, rfl, rfl, fun h => absurd h.1 (lt_irrefl 0)⟩

/-! ## C18: the coordinates that are read -/

/-- For a positive dimension, `(n - 1) >> s` is `ceil(n / 2^s) - 1`. -/
theorem shiftRight_pred_eq_specMaxUV (n s : Nat) (hn : 0 < n) :
    (((n - 1) >>> s : Nat) : ℤ) = specMaxUV n s := by
  have hP : 0 < 2 ^ s := Nat.two_pow_pos s
  have hdm := Nat.div_add_mod (n - 1) (2 ^ s)
  have hr := Nat.mod_lt (n - 1) hP
  have hPq : (0 : ℚ) < 2 ^ s := by positivity
  rw [specMaxUV, Nat.shiftRight_eq_div_pow]
  generalize (n - 1) / 2 ^ s = q at hdm ⊢
  generalize (n - 1) % 2 ^ s = r at hdm hr
  have h1 : n = 2 ^ s * q + r + 1 := by omega
  have hnq : (n : ℚ) = (2 : ℚ) ^ s * q + r + 1 := by
    have h2 := congrArg (Nat.cast : Nat → ℚ) h1
    push_cast at h2
    exact h2
  have hrq : (r : ℚ) + 1 ≤ 2 ^ s := by
    have h3 : r + 1 ≤ 2 ^ s := hr
    have h4 := (Nat.cast_le (α := ℚ)).mpr h3
    push_cast at h4
    exact h4
  have hnn : (0 : ℚ) ≤ (r : ℚ) := Nat.cast_nonneg _
  have hceil : ⌈(n : ℚ) / 2 ^ s⌉ = (q : ℤ) + 1 := by
    rw [Int.ceil_eq_iff]
    push_cast
    constructor
    · rw [lt_div_iff₀ hPq]
      nlinarith
    · rw [div_le_iff₀ hPq]
      nlinarith
  rw [hceil]
  ring

theorem getReads_inBounds {T : DataByteType} (s : YUV_t T) (index : Nat) :
    ∀ r ∈ s.getReads index, r.inBounds s.m_image := by
  intro r hr
  unfold YUV_t.getReads at hr
  by_cases h : index ≥ s.size
  · rw [if_pos h] at hr
    cases hr
  · rw [if_neg h] at hr
    have hlt : index < s.m_image.width * s.m_image.height :=
      lt_of_lt_of_le (not_le.mp h) (u32_le _)
    have hw : 0 < s.m_image.width := by
      rcases Nat.eq_zero_or_pos s.m_image.width with h0 | h0
      · rw [h0, Nat.zero_mul] at hlt
        exact absurd hlt (Nat.not_lt_zero _)
      · exact h0
    have hrow : index / s.m_image.width < s.m_image.height := Nat.div_lt_of_lt_mul hlt
    have hcol : index % s.m_image.width < s.m_image.width := Nat.mod_lt _ hw
    have huvY : min (u32 ((index / s.m_image.width) >>> s.m_image.chromaShiftY)) s.MAX_UVY
        ≤ (s.m_image.height - 1) >>> s.m_image.chromaShiftY :=
      le_trans (min_le_left _ _) (le_trans (u32_le _) (shiftRight_mono _ (by omega)))
    have huvX : min (u32 ((index % s.m_image.width) >>> s.m_image.chromaShiftX)) s.MAX_UVX
        ≤ (s.m_image.width - 1) >>> s.m_image.chromaShiftX :=
      le_trans (min_le_left _ _) (le_trans (u32_le _) (shiftRight_mono _ (by omega)))
    simp only [List.mem_cons, List.mem_singleton, List.not_mem_nil, or_false] at hr
    rcases hr with rfl | rfl | rfl
    · exact ⟨hrow, hcol⟩
    · exact ⟨huvY, huvX⟩
    · exact ⟨huvY, huvX⟩

theorem ConstIter_getReads_inBounds {T : DataByteType} (s : YUV_t T) (m_index m_uvY : Nat)
    (huv : m_index < s.size → m_uvY ≤ (s.m_image.height - 1) >>> s.m_image.chromaShiftY) :
    ∀ r ∈ YUV_t.ConstIter.getReads s m_index m_uvY, r.inBounds s.m_image := by
  intro r hr
  unfold YUV_t.ConstIter.getReads at hr
  by_cases h : m_index ≥ s.size
  · rw [if_pos h] at hr
    cases hr
  · rw [if_neg h] at hr
    have hlt : m_index < s.m_image.width * s.m_image.height :=
      lt_of_lt_of_le (not_le.mp h) (u32_le _)
    have hw : 0 < s.m_image.width := by
      rcases Nat.eq_zero_or_pos s.m_image.width with h0 | h0
      · rw [h0, Nat.zero_mul] at hlt
        exact absurd hlt (Nat.not_lt_zero _)
      · exact h0
    have hrow : m_index / s.m_image.width < s.m_image.height := Nat.div_lt_of_lt_mul hlt
    have hcol : m_index % s.m_image.width < s.m_image.width := Nat.mod_lt _ hw
    have huvX : min (u32 ((m_index % s.m_image.width) >>> s.m_image.chromaShiftX)) s.MAX_UVX
        ≤ (s.m_image.width - 1) >>> s.m_image.chromaShiftX :=
      le_trans (min_le_left _ _) (le_trans (u32_le _) (shiftRight_mono _ (by omega)))
    simp only [List.mem_cons, List.mem_singleton, List.not_mem_nil, or_false] at hr
    rcases hr with rfl | rfl | rfl
    · exact ⟨hrow, hcol⟩
    · exact ⟨huv (not_le.mp h), huvX⟩
    · exact ⟨huv (not_le.mp h), huvX⟩

/-- The chroma row cached for an index below `size()` is inside the plane. -/
theorem cached_row_le {T : DataByteType} (s : YUV_t T) (i : Nat) (h : i < s.size) :
    min (u32 ((i / s.m_image.width) >>> s.m_image.chromaShiftY)) s.MAX_UVY
      ≤ (s.m_image.height - 1) >>> s.m_image.chromaShiftY := by
  have hlt : i < s.m_image.width * s.m_image.height := lt_of_lt_of_le h (u32_le _)
  have hrow : i / s.m_image.width < s.m_image.height := Nat.div_lt_of_lt_mul hlt
  exact le_trans (min_le_left _ _) (le_trans (u32_le _) (shiftRight_mono _ (by omega)))

theorem newReads_inBounds {T : DataByteType} (s : YUV_t T) (index : Nat) :
    ∀ r ∈ YUV_t.ConstIter.newReads s index, r.inBounds s.m_image :=
  ConstIter_getReads_inBounds s index _ (fun h => cached_row_le s index h)

theorem preIncReads_inBounds {T : DataByteType} (s : YUV_t T) (j k : Nat) :
    ∀ r ∈ (Nat.iterate YUV_t.ConstIter.preInc k (YUV_t.ConstIter.new s j)).preIncReads,
      r.inBounds s.m_image := by
  rw [iterate_preInc_new]
  intro r hr
  simp only [YUV_t.ConstIter.preIncReads] at hr
  by_cases hlt : j + k + 1 < s.size
  · rw [if_pos hlt] at hr
    refine ConstIter_getReads_inBounds s (j + k + 1) _ (fun h => ?_) r hr
    by_cases hrow : (j + k) / s.m_image.width = (j + k + 1) / s.m_image.width
    · rw [if_neg (not_not.mpr hrow), hrow]
      exact cached_row_le s _ h
    · rw [if_pos hrow]
      exact cached_row_le s _ h
  · rw [if_neg hlt] at hr
    cases hr

/-- C18: for every descriptor with `width > 0` and `height > 0`, chroma shifts
below 32 and every `index < width*height`, each coordinate `get(index)` reads is
inside its plane: luma row `< height`, luma column `< width`, chroma row
`≤ (height - 1) >> chromaShiftY = ceil(height / 2^chromaShiftY) - 1`, chroma column
`≤ (width - 1) >> chromaShiftX = ceil(width / 2^chromaShiftX) - 1`; the same holds
for the reads of the construction of `begin()` and of every advance from it. -/
theorem reads_inBounds (T : DataByteType) (image : YUVImage) (index : Nat)
    (hw : 0 < image.width) (hh : 0 < image.height)
    (_hsx : image.chromaShiftX < 32) (_hsy : image.chromaShiftY < 32)
    (_hi : index < image.width * image.height) :
    (∀ r ∈ (YUV_t.new T image).getReads index, r.inBounds image)
    ∧ (((image.height - 1) >>> image.chromaShiftY : Nat) : ℤ)
        = specMaxUV image.height image.chromaShiftY
    ∧ (((image.width - 1) >>> image.chromaShiftX : Nat) : ℤ)
        = specMaxUV image.width image.chromaShiftX
    ∧ (∀ r ∈ YUV_t.ConstIter.newReads (YUV_t.new T image) 0, r.inBounds image)
    ∧ (∀ k, k < image.width * image.height → ∀ j, j < k →
        ∀ r ∈ (Nat.iterate YUV_t.ConstIter.preInc j (YUV_t.new T image).begin).preIncReads,
          r.inBounds image) :=
  ⟨getReads_inBounds (YUV_t.new T image) index,
   shiftRight_pred_eq_specMaxUV _ _ hh,
   shiftRight_pred_eq_specMaxUV _ _ hw,
   newReads_inBounds (YUV_t.new T image) 0,
   fun _ _ j _ => preIncReads_inBounds (YUV_t.new T image) 0 j⟩

theorem reads_inBounds_witness :
    (YUV_t.new .uint8_t rampImage420).getReads 15
        = [{ plane := .Y, row := 3, col := 3 }, { plane := .U, row := 1, col := 1 },
           { plane := .V, row := 1, col := 1 }]
    ∧ ∀ r ∈ (YUV_t.new .uint8_t rampImage420).getReads 15, r.inBounds rampImage420 :=
  ⟨by decide,
   (reads_inBounds .uint8_t rampImage420 15 (by decide) (by decide) (by decide) (by decide)
      (by decide)).1⟩

/-! ## C19: divisions by the width -/

theorem width_pos_of_lt_size {T : DataByteType} (s : YUV_t T) (index : Nat)
    (h : index < s.size) : s.m_image.width ≠ 0 := by
  intro h0
  have hs : s.size = 0 := by simp [YUV_t.size, h0, u32]
  rw [hs] at h
  exact absurd h (Nat.not_lt_zero _)

/-- Random access never divides by zero: the checked `get` always returns, with
the value of `get`. -/
theorem getChecked_eq_get {T : DataByteType} (s : YUV_t T) (index : Nat) :
    s.getChecked index = some (s.get index) := by
  unfold YUV_t.getChecked YUV_t.get
  by_cases h : index ≥ s.size
  · rw [if_pos h, if_pos h]
  · rw [if_neg h, if_neg h]
    have hw := width_pos_of_lt_size s index (not_le.mp h)
    simp [checkedMod, checkedDiv, hw]

theorem ConstIter_getChecked_eq_get {T : DataByteType} (s : YUV_t T) (m_index m_uvY : Nat) :
    YUV_t.ConstIter.getChecked s m_index m_uvY = some (YUV_t.ConstIter.get s m_index m_uvY) := by
  unfold YUV_t.ConstIter.getChecked YUV_t.ConstIter.get
  by_cases h : m_index ≥ s.size
  · rw [if_pos h, if_pos h]
  · rw [if_neg h, if_neg h]
    have hw := width_pos_of_lt_size s m_index (not_le.mp h)
    simp [checkedMod, checkedDiv, hw]

/-- The constructor of a position divides by the width whatever the index. -/
theorem newChecked_eq {T : DataByteType} (s : YUV_t T) (index : Nat) :
    YUV_t.ConstIter.newChecked s index
      = if s.m_image.width = 0 then none else some (YUV_t.ConstIter.new s index) := by
  unfold YUV_t.ConstIter.newChecked
  by_cases hw : s.m_image.width = 0
  · simp [checkedDiv, hw]
  · simp [checkedDiv, hw, ConstIter_getChecked_eq_get, YUV_t.ConstIter.new]

/-- The advance divides by the width whatever the index. -/
theorem preIncChecked_eq {T : DataByteType} (it : YUV_t.ConstIter T) :
    it.preIncChecked
      = if it.m_parent.m_image.width = 0 then none else some it.preInc := by
  unfold YUV_t.ConstIter.preIncChecked
  by_cases hw : it.m_parent.m_image.width = 0
  · simp [checkedDiv, hw]
  · simp only [checkedDiv, hw, if_false, ConstIter_getChecked_eq_get, YUV_t.ConstIter.preInc]
    by_cases hlt : it.m_index + 1 < it.m_parent.size
    · simp [hlt]
    · simp [hlt]

/-- C19: for every descriptor and every index, `YUV_t::get` evaluates no integer
division or remainder with divisor zero: with `width = 0` or `height = 0` the
size is `0` and the range check returns the sentinel first.  The constructor of a
position (used by `begin()` and `end()`) and the advance divide by the width
unconditionally: they are free of a division by zero exactly when `width > 0`. -/
theorem get_division_safe (T : DataByteType) (image : YUVImage) (index : Nat) :
    (YUV_t.new T image).getChecked index = some ((YUV_t.new T image).get index)
    ∧ ((image.width = 0 ∨ image.height = 0) →
        (YUV_t.new T image).size = 0
        ∧ (YUV_t.new T image).get index = { Y := -1, U := -1, V := -1 })
    ∧ (∀ j, YUV_t.ConstIter.newChecked (YUV_t.new T image) j
        = if image.width = 0 then none else some (YUV_t.ConstIter.new (YUV_t.new T image) j))
    ∧ (∀ j, (YUV_t.ConstIter.newChecked (YUV_t.new T image) j).isSome = true ↔ 0 < image.width)
    ∧ (∀ it : YUV_t.ConstIter T, it.m_parent = YUV_t.new T image →
        it.preIncChecked = if image.width = 0 then none else some it.preInc)
    ∧ (∀ it : YUV_t.ConstIter T, it.m_parent = YUV_t.new T image →
        (it.preIncChecked.isSome = true ↔ 0 < image.width)) := by
  refine ⟨getChecked_eq_get _ _, ?_, fun j => newChecked_eq _ j, ?_, ?_, ?_⟩
  · intro h0
    have hs : (YUV_t.new T image).size = 0 := by
      rcases h0 with h0 | h0 <;> simp [size_new, h0, u32]
    exact ⟨hs, get_of_size_le _ _ (by rw [hs]; exact Nat.zero_le _)⟩
  · intro j
    rw [newChecked_eq]
    show (if image.width = 0 then none else some _).isSome = true ↔ 0 < image.width
    by_cases hw : image.width = 0
    · simp [hw]
    · simp [hw, Nat.pos_of_ne_zero hw]
  · intro it hit
    rw [preIncChecked_eq, hit]
    rfl
  · intro it hit
    rw [preIncChecked_eq, hit]
    show (if image.width = 0 then none else some _).isSome = true ↔ 0 < image.width
    by_cases hw : image.width = 0
    · simp [hw]
    · simp [hw, Nat.pos_of_ne_zero hw]

theorem get_division_safe_witness :
    (YUV_t.new .uint8_t emptyWidthImage).getChecked 0 = some { Y := -1, U := -1, V := -1 }
    ∧ YUV_t.ConstIter.newChecked (YUV_t.new .uint8_t emptyWidthImage) 0 = none :=
  have h := get_division_safe .uint8_t emptyWidthImage 0
  ⟨by rw [h.1, (h.2.1 (Or.inl rfl)).2], by rw [h.2.2.1 0]; rfl⟩

/-! ## The writer on one pixel, in exact arithmetic -/

theorem toUInt8_eq_of_floor (x : ℚ) (n : Nat) (h0 : (n : ℚ) ≤ x) (h1 : x < n + 1)
    (hn : n < 256) : toUInt8 x = n := by
  have hx0 : 0 ≤ x := le_trans (Nat.cast_nonneg n) h0
  have hfl : ⌊x⌋ = (n : ℤ) := by
    rw [Int.floor_eq_iff]
    push_cast
    exact ⟨h0, h1⟩
  unfold toUInt8
  rw [if_pos hx0, hfl, Int.emod_eq_of_lt (by omega) (by omega)]
  exact Int.toNat_natCast n

/-- The exact-arithmetic bytes of the pixel with raw samples 153, 126, 19 under
BT.601: the green channel times `255` is `230.99999...`, so its byte is `230`. -/
theorem toRGB24_roundingImage :
    ∃ out : Nat → Nat,
      toRGB24 1 (fun _ => 0)
          { m_yuvs := YUV_t.new .uint8_t roundingImage,
            m_param := CvtConstantParamerter.BT601 } = some out
      ∧ out 0 = 0 ∧ out 1 = 230 ∧ out 2 = 150 := by
  have hsz : (RGBFloat.mk (YUV_t.new .uint8_t roundingImage)
      CvtConstantParamerter.BT601).m_yuvs.size = 1 := by decide
  have hget : (YUV_t.new .uint8_t roundingImage).get 0
      = { Y := 153 / 255, U := 126 / 255 - 1 / 2, V := 19 / 255 - 1 / 2 } := by
    rw [get_of_lt_size _ _ (by decide)]
    have hY : (YUV_t.new .uint8_t roundingImage).rawY 0 = 153 := by decide
    have hU : (YUV_t.new .uint8_t roundingImage).rawU 0 = 126 := by decide
    have hV : (YUV_t.new .uint8_t roundingImage).rawV 0 = 19 := by decide
    have hd : (YUV_t.new .uint8_t roundingImage).m_image.depth = 8 := rfl
    rw [hY, hU, hV, hd]
    norm_num
  obtain ⟨_, hW⟩ := iterate_body_ptr (RGBFloat.mk (YUV_t.new .uint8_t roundingImage)
    CvtConstantParamerter.BT601) (fun _ => 0) 1 (by rw [hsz])
  obtain ⟨h0, h1, h2⟩ := hW 0 (by decide)
  refine ⟨_, by rw [toRGB24_eq, hsz, if_pos (le_refl 1)], ?_, ?_, ?_⟩
  · rw [h0]
    simp only [RGBFloat.get, hget]
    apply toUInt8_eq_of_floor <;> norm_num [RGBFloat.formula, CvtConstantParamerter.BT601]
  · rw [h1]
    simp only [RGBFloat.get, hget]
    apply toUInt8_eq_of_floor <;> norm_num [RGBFloat.formula, CvtConstantParamerter.BT601]
  · rw [h2]
    simp only [RGBFloat.get, hget]
    apply toUInt8_eq_of_floor <;> norm_num [RGBFloat.formula, CvtConstantParamerter.BT601]

end CvtYUV2RGB

end Kumazuma
